import Mathlib

/-!
# restapi_go: an in-memory student store behind five HTTP handlers

Shallow embedding of `src/main.go`.

Modelling choices.

* The three package-level variables `students`, `lastId`, `lastQueriedId` become the
  fields of `Globals`; every handler is a function from the globals (and the response
  writer it is handed) to the new globals and the writer after the handler returned.
* Go `int` values are `Int`.  The counters move by `+1` per request from the seed value
  `10`, so the 64-bit wrap is never reached by the executions studied here and the
  increments are plain `+ 1`.  Where the width of `int` is observable, namely in the range
  check of `strconv.Atoi`, the 64-bit bounds are explicit.
* A Go `map[int]Student` is a finite partial map with unique keys: `AList`.  The order in
  which `range` visits the map is not determined by the map, so the list handler takes the
  visiting order as an argument `iter`; `RangeOrder` says that `iter` is one of the orders
  `range` can produce.
* `http.ResponseWriter`, `http.Error`, `strconv.Atoi` and `sort.Sort` belong to the Go
  standard library; they are modelled after their documented behaviour, next to the
  repository code that calls them.
* `json.Decoder.Decode` is represented by its outcome: `some student` when the body decodes,
  `none` when it returns an error.  `json.Encoder.Encode` writes one chunk that is
  represented by the value encoded.
-/

namespace RestApi

/-! ## Data model -/

/-- Source: `type Student struct { Id int; Name string; Age int; Score int }`. -/
structure Student where
  Id : Int
  Name : String
  Age : Int
  Score : Int
deriving DecidableEq, Repr

/-- Source: `map[int]Student`. -/
abbrev StudentMap := AList (fun _ : Int => Student)

/-- The package-level variables `students`, `lastId` and `lastQueriedId`. -/
structure Globals where
  students : StudentMap
  lastId : Int
  lastQueriedId : Int
deriving DecidableEq

/-- The values stored in the map, in the order of the representation. -/
def values (m : StudentMap) : List Student := m.entries.map (fun e => e.2)

/-- An order in which `for _, student := range students` can visit the values. -/
def RangeOrder (m : StudentMap) (iter : List Student) : Prop := iter.Perm (values m)

/-! ## net/http: the response writer -/

/-- One chunk written to the response body. -/
inductive Body where
  | text (msg : String)
  | student (s : Student)
  | students (l : List Student)
deriving DecidableEq, Repr

/-- Model of `http.ResponseWriter`: `header` is the live map returned by `w.Header()`;
`sent` is the copy of it that goes on the wire, taken when the status line is written. -/
structure ResponseWriter where
  header : List (String × String)
  wroteHeader : Bool
  status : Nat
  sent : List (String × String)
  body : List Body
deriving DecidableEq, Repr

/-- The writer a handler receives for a fresh request. -/
def newResponseWriter : ResponseWriter :=
  { header := [], wroteHeader := false, status := 0, sent := [], body := [] }

/-- The call `w.Header().Set(key, value)`. -/
def ResponseWriter.HeaderSet (w : ResponseWriter) (key value : String) : ResponseWriter :=
  { w with header := (key, value) :: w.header.filter (fun p => p.1 ≠ key) }

/-- The call `w.Header().Del(key)`. -/
def ResponseWriter.HeaderDel (w : ResponseWriter) (key : String) : ResponseWriter :=
  { w with header := w.header.filter (fun p => p.1 ≠ key) }

/-- The call `w.WriteHeader(code)`: the first call fixes the status and the headers sent;
later calls are ignored. -/
def ResponseWriter.WriteHeader (w : ResponseWriter) (code : Nat) : ResponseWriter :=
  if w.wroteHeader then w
  else { w with wroteHeader := true, status := code, sent := w.header }

/-- The call `w.Write(chunk)`: writes the status line with `200` first when no
`WriteHeader` call was made. -/
def ResponseWriter.Write (w : ResponseWriter) (chunk : Body) : ResponseWriter :=
  let w1 := if w.wroteHeader then w else w.WriteHeader 200
  { w1 with body := w1.body ++ [chunk] }

/-- The call `json.NewEncoder(w).Encode(v)`: one write of the encoded value. -/
def ResponseWriter.Encode (w : ResponseWriter) (v : Body) : ResponseWriter := w.Write v

/-- The library function `http.Error(w, msg, code)`. -/
def httpError (w : ResponseWriter) (msg : String) (code : Nat) : ResponseWriter :=
  let w1 := w.HeaderDel "Content-Length"
  let w2 := w1.HeaderSet "Content-Type" "text/plain; charset=utf-8"
  let w3 := w2.HeaderSet "X-Content-Type-Options" "nosniff"
  (w3.WriteHeader code).Write (Body.text msg)

/-- The value of a header among those sent. -/
def ResponseWriter.sentHeader (w : ResponseWriter) (key : String) : Option String :=
  (w.sent.find? (fun p => p.1 = key)).map (fun p => p.2)

def StatusOK : Nat := 200
def StatusCreated : Nat := 201
def StatusBadRequest : Nat := 400
def StatusNotFound : Nat := 404

/-! ## strconv.Atoi on a 64-bit platform -/

/-- The two kinds of `*strconv.NumError` that `Atoi` returns. -/
inductive NumError where
  | syntaxErr
  | rangeErr
deriving DecidableEq, Repr

def maxUint64 : Nat := 18446744073709551615
def maxInt : Int := 9223372036854775807
def minInt : Int := -9223372036854775808

/-- Decimal digit test on a byte, `'0' <= c && c <= '9'`. -/
def isDigit (c : Char) : Bool := decide ('0'.toNat ≤ c.toNat ∧ c.toNat ≤ '9'.toNat)

/-- Value of a decimal digit, `c - '0'`. -/
def digitVal (c : Char) : Nat := c.toNat - '0'.toNat

/-- The loop of `strconv.ParseUint(s, 10, 64)`.  A byte that is not a decimal digit is a
syntax error (letters are digits above the base, every other byte is rejected outright); a
character outside ASCII stands for bytes that are not digits.  `n*10` and `n*10 + d` are
computed in `uint64`, hence the reductions modulo `2^64`. -/
def parseUintLoop : List Char → Nat → Nat × Option NumError
  | [], n => (n, none)
  | c :: cs, n =>
    if isDigit c then
      if n ≥ maxUint64 / 10 + 1 then (maxUint64, some NumError.rangeErr)
      else
        let n10 := (n * 10) % 18446744073709551616
        let n1 := (n10 + digitVal c) % 18446744073709551616
        if n1 < n10 ∨ n1 > maxUint64 then (maxUint64, some NumError.rangeErr)
        else parseUintLoop cs n1
    else (0, some NumError.syntaxErr)

/-- Model of `strconv.ParseUint(s, 10, 64)`. -/
def ParseUint (s : List Char) : Nat × Option NumError :=
  if s = [] then (0, some NumError.syntaxErr) else parseUintLoop s 0

/-- Model of `strconv.ParseInt(s, 10, 0)`. -/
def ParseInt (s : List Char) : Int × Option NumError :=
  match s with
  | [] => (0, some NumError.syntaxErr)
  | c :: cs =>
    let neg := decide (c = '-')
    let rest := if c = '+' ∨ c = '-' then cs else c :: cs
    match ParseUint rest with
    | (_, some NumError.syntaxErr) => (0, some NumError.syntaxErr)
    | (un, _) =>
      if ¬ neg ∧ un ≥ 9223372036854775808 then (maxInt, some NumError.rangeErr)
      else if neg ∧ un > 9223372036854775808 then (minInt, some NumError.rangeErr)
      else (if neg then -(un : Int) else (un : Int), none)

/-- The digit loop of the fast path of `Atoi`: `none` on a byte that is not a digit. -/
def atoiFastLoop : List Char → Int → Option Int
  | [], n => some n
  | c :: cs, n => if isDigit c then atoiFastLoop cs (n * 10 + (digitVal c : Int)) else none

/-- Model of `strconv.Atoi(s)`: the value and the error returned.  Strings of 1 to 18
bytes take the fast path, all others go through `ParseInt`. -/
def Atoi (s : String) : Int × Option NumError :=
  if 0 < s.utf8ByteSize ∧ s.utf8ByteSize < 19 then
    match s.data with
    | [] => (0, some NumError.syntaxErr)
    | c :: cs =>
      let rest := if c = '-' ∨ c = '+' then cs else c :: cs
      if rest = [] then (0, some NumError.syntaxErr)
      else
        match atoiFastLoop rest 0 with
        | none => (0, some NumError.syntaxErr)
        | some n => (if c = '-' then -n else n, none)
  else ParseInt s.data

/-- The number written by a string of decimal digits, continuing from `n`. -/
def decimalFrom (n : Nat) (cs : List Char) : Nat :=
  cs.foldl (fun m c => m * 10 + digitVal c) n

/-- Reference reading of a string as an integer, to compare `Atoi` with: an optional sign,
then one or more decimal digits, denoting a value an `int` can hold. -/
def intOfChars (l : List Char) : Option Int :=
  match l with
  | [] => none
  | c :: cs =>
    let ds := if c = '-' ∨ c = '+' then cs else c :: cs
    if ds = [] ∨ ds.all isDigit = false then none
    else
      let v : Int := if c = '-' then -(decimalFrom 0 ds : Int) else (decimalFrom 0 ds : Int)
      if minInt ≤ v ∧ v ≤ maxInt then some v else none

/-- Reference reading of a path segment as an integer. -/
def intOfString (s : String) : Option Int := intOfChars s.data

/-- Whether a string starts with a minus sign. -/
def minusSign : List Char → Bool
  | [] => false
  | c :: _ => decide (c = '-')

/-- A string without its leading sign, when it has one. -/
def unsignedPart : List Char → List Char
  | [] => []
  | c :: cs => if c = '-' ∨ c = '+' then cs else c :: cs

/-- The strings on which `Atoi` is to report a syntax error: nothing is left after the
optional sign, or a character other than a decimal digit follows leading digits that do not
exceed the largest `uint64`. -/
def syntaxFailure (l : List Char) : Bool :=
  decide (unsignedPart l = []) ||
    (!((unsignedPart l).all isDigit) &&
      decide (decimalFrom 0 ((unsignedPart l).takeWhile isDigit) ≤ maxUint64))

/-- The strings on which `Atoi` is to report a range error: the leading digits exceed the
largest `uint64`, whatever follows them, or there are digits only and the signed number does
not fit an `int`. -/
def rangeFailure (l : List Char) : Bool :=
  decide (unsignedPart l ≠ []) &&
    (decide (decimalFrom 0 ((unsignedPart l).takeWhile isDigit) > maxUint64) ||
      ((unsignedPart l).all isDigit &&
        (if minusSign l then decide (decimalFrom 0 (unsignedPart l) > 9223372036854775808)
          else decide (decimalFrom 0 (unsignedPart l) ≥ 9223372036854775808))))

/-- The bound of `int` on the side of the sign of a string. -/
def boundOfSign (l : List Char) : Int := if minusSign l then minInt else maxInt

/-- Reference description of the result of `Atoi`, value and error, to compare `Atoi`
with. -/
def atoiRef (l : List Char) : Int × Option NumError :=
  if syntaxFailure l then (0, some NumError.syntaxErr)
  else if rangeFailure l then (boundOfSign l, some NumError.rangeErr)
  else
    (if minusSign l then -(decimalFrom 0 (unsignedPart l) : Int)
      else (decimalFrom 0 (unsignedPart l) : Int), none)

/-- The expression `[0-9]+` of the routes `/students/{id:[0-9]+}`, which the router matches
against the whole segment. -/
def matchesIdPattern (seg : String) : Bool :=
  decide (seg.data ≠ []) && seg.data.all isDigit

/-! ## sort.Sort over the repository's `Students` -/

/-- Source: `type Students []Student`. -/
abbrev Students := List Student

/-- Source: `func (s Students) Len() int { return len(s) }`. -/
def Students.Len (s : Students) : Nat := s.length

/-- Source: `func (s Students) Swap(i, j int) { s[i], s[j] = s[j], s[i] }`; an index out
of range (a run-time panic in Go, never produced by `sort.Sort`) leaves the slice as is. -/
def Students.Swap (s : Students) (i j : Nat) : Students :=
  match s[i]?, s[j]? with
  | some a, some b => (s.set i b).set j a
  | _, _ => s

/-- Source: `func (s Students) Less(i, j int) bool { return s[i].Id < s[j].Id }`. -/
def Students.Less (s : Students) (i j : Nat) : Bool :=
  match s[i]?, s[j]? with
  | some a, some b => decide (a.Id < b.Id)
  | _, _ => false

/-- Inner loop of the library's insertion sort,
`for j := i; j > 0 && data.Less(j, j-1); j-- { data.Swap(j, j-1) }`, started at `j`. -/
def insertionInner (s : Students) : Nat → Students
  | 0 => s
  | j + 1 =>
    if Students.Less s (j + 1) j then insertionInner (Students.Swap s (j + 1) j) j else s

/-- Model of `sort.Sort(list)`: the insertion sort `for i := 1; i < n; i++ { ... }` that the
library runs through `Len`, `Less` and `Swap` (it is the algorithm used for slices of at most
12 elements; on longer slices the library switches to a quicksort variant, which returns the
same slice whenever no two elements compare equal, as is the case for distinct ids). -/
def sortSort (s : Students) : Students :=
  (List.range' 1 (Students.Len s - 1)).foldl insertionInner s

/-- Moving `x` leftwards through a prefix held in reverse order (nearest neighbour first):
`x` passes every neighbour whose `Id` is larger. -/
def bubble (x : Student) : List Student → List Student
  | [] => [x]
  | p :: ps => if x.Id < p.Id then p :: bubble x ps else x :: p :: ps

/-- Insertion of `x` at the right end of `pre`, as a list function. -/
def insertRight (pre : List Student) (x : Student) : List Student :=
  (bubble x pre.reverse).reverse

/-- Ascending by `Id`, ties allowed. -/
abbrev AscId (l : List Student) : Prop := l.Pairwise (fun a b => a.Id ≤ b.Id)

/-- The claim's "valid non-negative integer": one or more decimal digits whose value an
`int` can hold. -/
def validNonNegInt (seg : String) : Bool :=
  matchesIdPattern seg && decide ((decimalFrom 0 seg.data : Int) ≤ maxInt)

/-! ## The handlers of `src/main.go` -/

/-- Source: the body of the loop of `GetStudentListHandler`, on the pair of the local
`list` and the writer: `list = append(list, student); sort.Sort(list);
w.WriteHeader(http.StatusOK)`. -/
def listLoopBody (acc : Students × ResponseWriter) (student : Student) :
    Students × ResponseWriter :=
  (sortSort (acc.1 ++ [student]), acc.2.WriteHeader StatusOK)

/-- Source: `GetStudentListHandler`.  `iter` is the order in which `range students` yields
the values. -/
def GetStudentListHandler (g : Globals) (w : ResponseWriter) (iter : List Student) :
    Globals × ResponseWriter :=
  let r := iter.foldl listLoopBody (([] : Students), w)
  (g, (r.2.HeaderSet "Content-Type" "application/json").Encode (Body.students r.1))

/-- Source: `GetStudentHandler`.  `id` is `mux.Vars(r)["id"]`. -/
def GetStudentHandler (g : Globals) (w : ResponseWriter) (id : String) :
    Globals × ResponseWriter :=
  match Atoi id with
  | (_, some _) => (g, httpError w "Invalid student ID" StatusBadRequest)
  | (n, none) =>
    match g.students.lookup n with
    | none => (g, httpError w "Student not found" StatusNotFound)
    | some student =>
      ({ g with lastQueriedId := n },
        ((w.WriteHeader StatusOK).HeaderSet "Content-Type" "application/json").Encode
          (Body.student student))

/-- Source: `PostStudentHandler`.  `decoded` is the outcome of
`json.NewDecoder(r.Body).Decode(&student)`. -/
def PostStudentHandler (g : Globals) (w : ResponseWriter) (decoded : Option Student) :
    Globals × ResponseWriter :=
  match decoded with
  | none => (g, w.WriteHeader StatusBadRequest)
  | some student =>
    let lastId := g.lastId + 1
    let student := { student with Id := lastId }
    ({ g with lastId := lastId, students := g.students.insert lastId student },
      ((w.WriteHeader StatusCreated).HeaderSet "Content-Type" "application/json").Encode
        (Body.student student))

/-- Source: `DeleteStudentHandler`.  The error of `Atoi` is discarded (`id, _ := ...`). -/
def DeleteStudentHandler (g : Globals) (w : ResponseWriter) (id : String) :
    Globals × ResponseWriter :=
  let n := (Atoi id).1
  match g.students.lookup n with
  | none => (g, w.WriteHeader StatusNotFound)
  | some _ => ({ g with students := g.students.erase n }, w.WriteHeader StatusOK)

/-- Source: `GetNextStudentHandler`. -/
def GetNextStudentHandler (g : Globals) (w : ResponseWriter) : Globals × ResponseWriter :=
  if g.lastQueriedId = 0 then
    (g, httpError w "No student has been queried yet" StatusNotFound)
  else
    let nextId := g.lastQueriedId + 1
    match g.students.lookup nextId with
    | none => (g, w.WriteHeader StatusNotFound)
    | some student =>
      ({ g with lastQueriedId := nextId },
        ((w.WriteHeader StatusOK).HeaderSet "Content-Type" "application/json").Encode
          (Body.student student))

/-- The ten records that `MakeWebHandler` stores, in the order of the assignments. -/
def seedStudents : List Student :=
  [⟨1, "aaa", 16, 87⟩, ⟨2, "bbb", 18, 98⟩, ⟨3, "ccc", 20, 85⟩, ⟨4, "ccc", 11, 70⟩,
   ⟨5, "ddd", 22, 76⟩, ⟨6, "eee", 33, 82⟩, ⟨7, "fff", 44, 83⟩, ⟨8, "ggg", 55, 96⟩,
   ⟨9, "hhh", 66, 62⟩, ⟨10, "iii", 77, 34⟩]

/-- Source: the state part of `MakeWebHandler`: `students = make(map[int]Student)`, the ten
assignments `students[i] = Student{i, ...}` and `lastId = 10`.  `lastQueriedId` is not
assigned. -/
def MakeWebHandler (g : Globals) : Globals :=
  { g with
    students := seedStudents.foldl (fun m s => m.insert s.Id s) (∅ : StudentMap),
    lastId := 10 }

/-- The zero values of the package-level variables at process start (the nil map reads as
the empty map, and `MakeWebHandler` replaces it before anything is written to it). -/
def zeroGlobals : Globals := { students := ∅, lastId := 0, lastQueriedId := 0 }

/-- The state in which the server starts to answer requests. -/
def seed : Globals := MakeWebHandler zeroGlobals

/-! ## Sequences of requests -/

/-- One request to one of the five handlers, with what the handler reads from it. -/
inductive Op where
  | list (iter : List Student)
  | get (id : String)
  | create (decoded : Option Student)
  | delete (id : String)
  | next

/-- Handling one request with a fresh response writer. -/
def handle (g : Globals) : Op → Globals × ResponseWriter
  | Op.list iter => GetStudentListHandler g newResponseWriter iter
  | Op.get id => GetStudentHandler g newResponseWriter id
  | Op.create decoded => PostStudentHandler g newResponseWriter decoded
  | Op.delete id => DeleteStudentHandler g newResponseWriter id
  | Op.next => GetNextStudentHandler g newResponseWriter

/-- The globals after a sequence of requests. -/
def run (g : Globals) (ops : List Op) : Globals :=
  ops.foldl (fun st op => (handle st op).1) g

/-- The states the server can be in: the seed state and every state obtained from it by a
finite sequence of requests. -/
def Reachable (g : Globals) : Prop := ∃ ops : List Op, run seed ops = g

/-- The record carried by a response whose body is one encoded record. -/
def bodyStudent (w : ResponseWriter) : Option Student :=
  match w.body with
  | [Body.student s] => some s
  | _ => none

/-- The id that a Create response reports as assigned: the `Id` of the record in its body. -/
def assignedId (r : Globals × ResponseWriter) : Option Int :=
  (bodyStudent r.2).map (fun s => s.Id)

/-- What holds of the globals in every reachable state. -/
def Inv (g : Globals) : Prop :=
  10 ≤ g.lastId ∧
  (∀ k, k ∈ g.students → 1 ≤ k ∧ k ≤ g.lastId) ∧
  (∀ k v, g.students.lookup k = some v → v.Id = k) ∧
  (g.lastQueriedId = 0 ∨ (1 ≤ g.lastQueriedId ∧ g.lastQueriedId ≤ g.lastId))



/-- The requests that may write to the map: Create and Delete. -/
def isCreateOrDelete : Op → Bool
  | Op.create _ => true
  | Op.delete _ => true
  | _ => false

/-- The requests that move the cursor: Get and Next. -/
def isGetOrNext : Op → Bool
  | Op.get _ => true
  | Op.next => true
  | _ => false

/-- The response of a successful Get or Next that carries `student`. -/
def okStudent (w : ResponseWriter) (student : Student) : ResponseWriter :=
  ((w.WriteHeader StatusOK).HeaderSet "Content-Type" "application/json").Encode
    (Body.student student)

/-! ## strconv.Atoi against the reference reading -/

theorem digitVal_le {c : Char} (h : isDigit c = true) : digitVal c ≤ 9 := by
  have h0 : '0'.toNat = 48 := rfl
  have h9 : '9'.toNat = 57 := rfl
  unfold isDigit at h
  unfold digitVal
  rw [h0, h9] at h
  rw [h0]
  have := of_decide_eq_true h
  omega

theorem decimalFrom_cons (n : Nat) (c : Char) (cs : List Char) :
    decimalFrom n (c :: cs) = decimalFrom (n * 10 + digitVal c) cs := rfl

theorem le_decimalFrom (cs : List Char) : ∀ n : Nat, n ≤ decimalFrom n cs := by
  induction cs with
  | nil => intro n; exact le_refl _
  | cons c cs ih =>
    intro n
    rw [decimalFrom_cons]
    have := ih (n * 10 + digitVal c)
    omega

theorem decimalFrom_lt (cs : List Char) (hd : cs.all isDigit = true) :
    ∀ n : Nat, decimalFrom n cs + 1 ≤ (n + 1) * 10 ^ cs.length := by
  induction cs with
  | nil => intro n; simp [decimalFrom]
  | cons c cs ih =>
    intro n
    rw [List.all_cons, Bool.and_eq_true] at hd
    have hc := digitVal_le hd.1
    rw [decimalFrom_cons, List.length_cons, pow_succ]
    have h1 := ih hd.2 (n * 10 + digitVal c)
    have h2 : (n * 10 + digitVal c + 1) * 10 ^ cs.length ≤ ((n + 1) * 10) * 10 ^ cs.length :=
      Nat.mul_le_mul_right _ (by omega)
    calc decimalFrom (n * 10 + digitVal c) cs + 1
        ≤ (n * 10 + digitVal c + 1) * 10 ^ cs.length := h1
      _ ≤ ((n + 1) * 10) * 10 ^ cs.length := h2
      _ = (n + 1) * (10 ^ cs.length * 10) := by ring

theorem parseUintLoop_digits (cs : List Char) (hd : cs.all isDigit = true) :
    ∀ n : Nat, n ≤ maxUint64 →
      parseUintLoop cs n =
        if decimalFrom n cs ≤ maxUint64 then (decimalFrom n cs, none)
        else (maxUint64, some NumError.rangeErr) := by
  induction cs with
  | nil =>
    intro n hn
    simp [parseUintLoop, decimalFrom, hn]
  | cons c cs ih =>
    intro n hn
    rw [List.all_cons, Bool.and_eq_true] at hd
    have hc := digitVal_le hd.1
    have hmono := le_decimalFrom cs (n * 10 + digitVal c)
    rw [decimalFrom_cons]
    unfold parseUintLoop
    unfold maxUint64 at *
    rw [if_pos hd.1]
    by_cases hcut : n ≥ 18446744073709551615 / 10 + 1
    · rw [if_pos hcut, if_neg (by omega)]
    · rw [if_neg hcut]
      simp only
      by_cases hov : (n * 10 % 18446744073709551616 + digitVal c) % 18446744073709551616
            < n * 10 % 18446744073709551616 ∨
          (n * 10 % 18446744073709551616 + digitVal c) % 18446744073709551616
            > 18446744073709551615
      · rw [if_pos hov, if_neg (by omega)]
      · rw [if_neg hov]
        have hEq : (n * 10 % 18446744073709551616 + digitVal c) % 18446744073709551616
            = n * 10 + digitVal c := by omega
        rw [hEq]
        exact ih hd.2 _ (by omega)

theorem parseUintLoop_nondigit (cs : List Char) (hd : cs.all isDigit = false) :
    ∀ n : Nat, (parseUintLoop cs n).2 ≠ none := by
  induction cs with
  | nil => simp at hd
  | cons c cs ih =>
    intro n
    unfold parseUintLoop
    by_cases hc : isDigit c = true
    · have hrest : cs.all isDigit = false := by
        rw [List.all_cons, hc, Bool.true_and] at hd
        exact hd
      rw [if_pos hc]
      split
      · simp
      · simp only
        split
        · simp
        · exact ih hrest _
    · rw [if_neg hc]
      simp

/-- Whatever the input, the loop ends with a value and no error, with a syntax error and 0,
or with a range error and the largest `uint64`. -/
theorem parseUintLoop_shape (cs : List Char) :
    ∀ n : Nat, (parseUintLoop cs n).2 = none ∨
      parseUintLoop cs n = (0, some NumError.syntaxErr) ∨
      parseUintLoop cs n = (maxUint64, some NumError.rangeErr) := by
  induction cs with
  | nil => intro n; exact Or.inl rfl
  | cons c cs ih =>
    intro n
    unfold parseUintLoop
    split
    · split
      · exact Or.inr (Or.inr rfl)
      · simp only
        split
        · exact Or.inr (Or.inr rfl)
        · exact ih _
    · exact Or.inr (Or.inl rfl)

theorem atoiFastLoop_digits (cs : List Char) (hd : cs.all isDigit = true) :
    ∀ n : Nat, atoiFastLoop cs (n : Int) = some (decimalFrom n cs : Int) := by
  induction cs with
  | nil => intro n; rfl
  | cons c cs ih =>
    intro n
    rw [List.all_cons, Bool.and_eq_true] at hd
    unfold atoiFastLoop
    rw [if_pos hd.1, decimalFrom_cons]
    have h := ih hd.2 (n * 10 + digitVal c)
    rw [← h]
    push_cast
    rfl

theorem atoiFastLoop_nondigit (cs : List Char) (hd : cs.all isDigit = false) :
    ∀ n : Int, atoiFastLoop cs n = none := by
  induction cs with
  | nil => simp at hd
  | cons c cs ih =>
    intro n
    unfold atoiFastLoop
    by_cases hc : isDigit c = true
    · rw [if_pos hc]
      apply ih
      rw [List.all_cons, hc, Bool.true_and] at hd
      exact hd
    · rw [if_neg hc]

theorem length_le_utf8ByteSize_go (cs : List Char) :
    cs.length ≤ String.utf8ByteSize.go cs := by
  induction cs with
  | nil => exact le_refl _
  | cons c cs ih =>
    have h := Char.utf8Size_pos c
    show cs.length + 1 ≤ String.utf8ByteSize.go cs + c.utf8Size
    omega

theorem length_le_utf8ByteSize (s : String) : s.data.length ≤ s.utf8ByteSize := by
  cases s
  exact length_le_utf8ByteSize_go _

theorem ParseInt_syntax_case (c : Char) (cs : List Char) (un : Nat)
    (h : ParseUint (if c = '+' ∨ c = '-' then cs else c :: cs)
      = (un, some NumError.syntaxErr)) :
    ParseInt (c :: cs) = (0, some NumError.syntaxErr) := by
  unfold ParseInt
  simp only [h]

theorem ParseInt_value_case (c : Char) (cs : List Char) (un : Nat)
    (h : ParseUint (if c = '+' ∨ c = '-' then cs else c :: cs) = (un, none)) :
    ParseInt (c :: cs) =
      if ¬ (decide (c = '-') = true) ∧ un ≥ 9223372036854775808 then
        (maxInt, some NumError.rangeErr)
      else if decide (c = '-') = true ∧ un > 9223372036854775808 then
        (minInt, some NumError.rangeErr)
      else (if decide (c = '-') = true then -(un : Int) else (un : Int), none) := by
  unfold ParseInt
  simp only [h]

theorem ParseInt_range_case (c : Char) (cs : List Char) (un : Nat)
    (h : ParseUint (if c = '+' ∨ c = '-' then cs else c :: cs)
      = (un, some NumError.rangeErr)) :
    ParseInt (c :: cs) =
      if ¬ (decide (c = '-') = true) ∧ un ≥ 9223372036854775808 then
        (maxInt, some NumError.rangeErr)
      else if decide (c = '-') = true ∧ un > 9223372036854775808 then
        (minInt, some NumError.rangeErr)
      else (if decide (c = '-') = true then -(un : Int) else (un : Int), none) := by
  unfold ParseInt
  simp only [h]

theorem ParseUint_shape (l : List Char) :
    (ParseUint l).2 = none ∨ ParseUint l = (0, some NumError.syntaxErr) ∨
      ParseUint l = (maxUint64, some NumError.rangeErr) := by
  unfold ParseUint
  split
  · exact Or.inr (Or.inl rfl)
  · exact parseUintLoop_shape l 0

theorem ParseUint_digits (ds : List Char) (hne : ds ≠ []) (hd : ds.all isDigit = true) :
    ParseUint ds =
      if decimalFrom 0 ds ≤ maxUint64 then (decimalFrom 0 ds, none)
      else (maxUint64, some NumError.rangeErr) := by
  unfold ParseUint
  rw [if_neg hne]
  exact parseUintLoop_digits ds hd 0 (by decide)

theorem ParseUint_error (ds : List Char) (h : ds = [] ∨ ds.all isDigit = false) :
    ParseUint ds = (0, some NumError.syntaxErr) ∨
      ParseUint ds = (maxUint64, some NumError.rangeErr) := by
  have hne : (ParseUint ds).2 ≠ none := by
    unfold ParseUint
    by_cases he : ds = []
    · rw [if_pos he]; simp
    · rw [if_neg he]
      rcases h with h | h
      · exact absurd h he
      · exact parseUintLoop_nondigit ds h 0
  rcases ParseUint_shape ds with h1 | h1 | h1
  · exact absurd h1 hne
  · exact Or.inl h1
  · exact Or.inr h1

/-- On every string the reference reading accepts, `ParseInt` returns its value. -/
theorem ParseInt_some (l : List Char) (v : Int) (h : intOfChars l = some v) :
    ParseInt l = (v, none) := by
  cases l with
  | nil => simp [intOfChars] at h
  | cons c cs =>
    unfold intOfChars at h
    simp only at h
    have hds : (if c = '+' ∨ c = '-' then cs else c :: cs)
        = (if c = '-' ∨ c = '+' then cs else c :: cs) := by
      simp only [or_comm]
    generalize hdsdef : (if c = '-' ∨ c = '+' then cs else c :: cs) = ds at h hds
    by_cases hbad : ds = [] ∨ ds.all isDigit = false
    · rw [if_pos hbad] at h; cases h
    · rw [if_neg hbad] at h
      have hne : ds ≠ [] := fun e => hbad (Or.inl e)
      have hd : ds.all isDigit = true := by
        cases hall : ds.all isDigit with
        | true => rfl
        | false => exact absurd (Or.inr hall) hbad
      by_cases hr : minInt ≤ (if c = '-' then -(decimalFrom 0 ds : Int)
          else (decimalFrom 0 ds : Int)) ∧
          (if c = '-' then -(decimalFrom 0 ds : Int) else (decimalFrom 0 ds : Int)) ≤ maxInt
      · rw [if_pos hr] at h
        have hv := Option.some.inj h
        have hU := ParseUint_digits ds hne hd
        unfold maxInt minInt at hr
        by_cases hneg : c = '-'
        · simp only [hneg, if_true] at hr hv
          have hle : decimalFrom 0 ds ≤ maxUint64 := by unfold maxUint64; omega
          rw [if_pos hle] at hU
          rw [ParseInt_value_case c cs (decimalFrom 0 ds) (by rw [hds]; exact hU)]
          have hdec : decide (c = '-') = true := decide_eq_true hneg
          rw [if_neg (by simp [hdec]), if_neg (by rw [hdec]; simp; omega)]
          simp [hdec, hv]
        · simp only [hneg, if_false] at hr hv
          have hle : decimalFrom 0 ds ≤ maxUint64 := by unfold maxUint64; omega
          rw [if_pos hle] at hU
          rw [ParseInt_value_case c cs (decimalFrom 0 ds) (by rw [hds]; exact hU)]
          have hdec : ¬ (decide (c = '-') = true) := by simp [hneg]
          rw [if_neg (by simp only [hdec, not_false_eq_true, true_and]; omega),
            if_neg (by simp [hdec])]
          simp [hneg, hv]
      · rw [if_neg hr] at h; cases h

/-- On every string the reference reading rejects, `ParseInt` returns an error. -/
theorem ParseInt_none (l : List Char) (h : intOfChars l = none) : (ParseInt l).2 ≠ none := by
  cases l with
  | nil => simp [ParseInt]
  | cons c cs =>
    unfold intOfChars at h
    simp only at h
    have hds : (if c = '+' ∨ c = '-' then cs else c :: cs)
        = (if c = '-' ∨ c = '+' then cs else c :: cs) := by
      simp only [or_comm]
    generalize hdsdef : (if c = '-' ∨ c = '+' then cs else c :: cs) = ds at h hds
    have hmax : ∀ un : Nat, un = maxUint64 →
        ParseUint (if c = '+' ∨ c = '-' then cs else c :: cs)
          = (un, some NumError.rangeErr) → (ParseInt (c :: cs)).2 ≠ none := by
      intro un hun hU
      rw [ParseInt_range_case c cs un hU]
      unfold maxUint64 at hun
      by_cases hdec : decide (c = '-') = true
      · rw [if_neg (by simp [hdec]), if_pos ⟨hdec, by omega⟩]; simp
      · rw [if_pos ⟨hdec, by omega⟩]; simp
    by_cases hbad : ds = [] ∨ ds.all isDigit = false
    · rcases ParseUint_error ds hbad with hU | hU
      · rw [ParseInt_syntax_case c cs 0 (by rw [hds]; exact hU)]; simp
      · exact hmax _ rfl (by rw [hds]; exact hU)
    · rw [if_neg hbad] at h
      have hne : ds ≠ [] := fun e => hbad (Or.inl e)
      have hd : ds.all isDigit = true := by
        cases hall : ds.all isDigit with
        | true => rfl
        | false => exact absurd (Or.inr hall) hbad
      have hU := ParseUint_digits ds hne hd
      by_cases hr : minInt ≤ (if c = '-' then -(decimalFrom 0 ds : Int)
          else (decimalFrom 0 ds : Int)) ∧
          (if c = '-' then -(decimalFrom 0 ds : Int) else (decimalFrom 0 ds : Int)) ≤ maxInt
      · rw [if_pos hr] at h; cases h
      · by_cases hle : decimalFrom 0 ds ≤ maxUint64
        · rw [if_pos hle] at hU
          rw [ParseInt_value_case c cs (decimalFrom 0 ds) (by rw [hds]; exact hU)]
          unfold maxInt minInt at hr
          by_cases hneg : c = '-'
          · simp only [hneg, if_true] at hr
            have hdec : decide (c = '-') = true := decide_eq_true hneg
            rw [if_neg (by simp [hdec]), if_pos ⟨hdec, by omega⟩]; simp
          · simp only [hneg, if_false] at hr
            have hdec : ¬ (decide (c = '-') = true) := by simp [hneg]
            rw [if_pos ⟨hdec, by omega⟩]; simp
        · rw [if_neg hle] at hU
          exact hmax _ rfl (by rw [hds]; exact hU)

theorem atoi_fast_eq (s : String) (c : Char) (cs : List Char) (hdata : s.data = c :: cs)
    (hfast : 0 < s.utf8ByteSize ∧ s.utf8ByteSize < 19) :
    Atoi s =
      if (if c = '-' ∨ c = '+' then cs else c :: cs) = [] then (0, some NumError.syntaxErr)
      else
        match atoiFastLoop (if c = '-' ∨ c = '+' then cs else c :: cs) 0 with
        | none => (0, some NumError.syntaxErr)
        | some n => (if c = '-' then -n else n, none) := by
  unfold Atoi
  rw [if_pos hfast]
  simp only [hdata]

theorem atoi_slow_eq (s : String) (hslow : ¬ (0 < s.utf8ByteSize ∧ s.utf8ByteSize < 19)) :
    Atoi s = ParseInt s.data := by
  unfold Atoi
  rw [if_neg hslow]

theorem atoi_of_nil (s : String) (hdata : s.data = []) :
    Atoi s = (0, some NumError.syntaxErr) := by
  unfold Atoi
  split
  · simp only [hdata]
  · rw [hdata]; rfl

/-- On every segment the reference reading accepts, `Atoi` returns its value. -/
theorem Atoi_some (s : String) (v : Int) (h : intOfString s = some v) :
    Atoi s = (v, none) := by
  by_cases hfast : 0 < s.utf8ByteSize ∧ s.utf8ByteSize < 19
  · unfold intOfString at h
    cases hdata : s.data with
    | nil => rw [hdata] at h; simp [intOfChars] at h
    | cons c cs =>
      rw [atoi_fast_eq s c cs hdata hfast]
      rw [hdata] at h
      unfold intOfChars at h
      simp only at h
      generalize (if c = '-' ∨ c = '+' then cs else c :: cs) = ds at h
      by_cases hbad : ds = [] ∨ ds.all isDigit = false
      · rw [if_pos hbad] at h; cases h
      · rw [if_neg hbad] at h
        have hne : ds ≠ [] := fun e => hbad (Or.inl e)
        have hd : ds.all isDigit = true := by
          cases hall : ds.all isDigit with
          | true => rfl
          | false => exact absurd (Or.inr hall) hbad
        have hloop := atoiFastLoop_digits ds hd 0
        rw [Nat.cast_zero] at hloop
        rw [if_neg hne, hloop]
        by_cases hr : minInt ≤ (if c = '-' then -(decimalFrom 0 ds : Int)
            else (decimalFrom 0 ds : Int)) ∧
            (if c = '-' then -(decimalFrom 0 ds : Int) else (decimalFrom 0 ds : Int)) ≤ maxInt
        · rw [if_pos hr] at h
          rw [← Option.some.inj h]
        · rw [if_neg hr] at h; cases h
  · rw [atoi_slow_eq s hfast]
    exact ParseInt_some _ _ h

/-- On every segment the reference reading rejects, `Atoi` returns an error. -/
theorem Atoi_none (s : String) (h : intOfString s = none) : (Atoi s).2 ≠ none := by
  by_cases hfast : 0 < s.utf8ByteSize ∧ s.utf8ByteSize < 19
  · unfold intOfString at h
    cases hdata : s.data with
    | nil => rw [atoi_of_nil s hdata]; simp
    | cons c cs =>
      rw [atoi_fast_eq s c cs hdata hfast]
      have hlen : (c :: cs).length ≤ 18 := by
        have := length_le_utf8ByteSize s
        rw [hdata] at this
        omega
      have hdslen : (if c = '-' ∨ c = '+' then cs else c :: cs).length ≤ 18 := by
        split
        · simp only [List.length_cons] at hlen; omega
        · exact hlen
      rw [hdata] at h
      unfold intOfChars at h
      simp only at h
      generalize (if c = '-' ∨ c = '+' then cs else c :: cs) = ds at h hdslen
      by_cases hne : ds = []
      · rw [if_pos hne]; simp
      · rw [if_neg hne]
        cases hall : ds.all isDigit with
        | false => rw [atoiFastLoop_nondigit ds hall 0]; simp
        | true =>
          exfalso
          rw [if_neg (by simp [hne, hall])] at h
          have hb := decimalFrom_lt ds hall 0
          have hp : 10 ^ ds.length ≤ 10 ^ 18 := Nat.pow_le_pow_right (by decide) hdslen
          have hsmall : decimalFrom 0 ds < 1000000000000000000 := by
            have h18 : (10 : Nat) ^ 18 = 1000000000000000000 := by norm_num
            omega
          unfold minInt maxInt at h
          by_cases hneg : c = '-'
          · simp only [hneg, if_true] at h
            rw [if_pos ⟨by omega, by omega⟩] at h
            cases h
          · simp only [hneg, if_false] at h
            rw [if_pos ⟨by omega, by omega⟩] at h
            cases h
  · rw [atoi_slow_eq s hfast]
    exact ParseInt_none _ h

/-- When `Atoi` fails, the value it returns next to the error is 0 for a syntax error and
the nearest bound of `int` for a range error. -/
theorem Atoi_error_value (s : String) :
    ((Atoi s).2 = some NumError.syntaxErr → (Atoi s).1 = 0) ∧
    ((Atoi s).2 = some NumError.rangeErr → (Atoi s).1 = maxInt ∨ (Atoi s).1 = minInt) := by
  by_cases hfast : 0 < s.utf8ByteSize ∧ s.utf8ByteSize < 19
  · cases hdata : s.data with
    | nil => rw [atoi_of_nil s hdata]; simp
    | cons c cs =>
      rw [atoi_fast_eq s c cs hdata hfast]
      by_cases hne : (if c = '-' ∨ c = '+' then cs else c :: cs) = []
      · rw [if_pos hne]; simp
      · rw [if_neg hne]
        cases atoiFastLoop (if c = '-' ∨ c = '+' then cs else c :: cs) 0 with
        | none => simp
        | some n => simp
  · rw [atoi_slow_eq s hfast]
    cases hl : s.data with
    | nil => simp [ParseInt]
    | cons c cs =>
      rcases hU : ParseUint (if c = '+' ∨ c = '-' then cs else c :: cs) with ⟨un, e⟩
      cases e with
      | none =>
        rw [ParseInt_value_case c cs un hU]
        split
        · simp
        · split <;> simp
      | some e =>
        cases e with
        | syntaxErr => rw [ParseInt_syntax_case c cs un hU]; simp
        | rangeErr =>
          rw [ParseInt_range_case c cs un hU]
          split
          · simp
          · split <;> simp

/-! ## strconv.Atoi against its reference description -/

theorem parseUintLoop_ref (cs : List Char) :
    ∀ n : Nat, n ≤ maxUint64 →
      parseUintLoop cs n =
        if decimalFrom n (cs.takeWhile isDigit) > maxUint64 then
          (maxUint64, some NumError.rangeErr)
        else if cs.all isDigit = true then (decimalFrom n cs, none)
        else (0, some NumError.syntaxErr) := by
  induction cs with
  | nil =>
    intro n hn
    have h0 : ¬ decimalFrom n [] > maxUint64 := by
      show ¬ n > maxUint64
      omega
    simp only [List.takeWhile_nil, List.all_nil, if_neg h0, if_true]
    rfl
  | cons c cs ih =>
    intro n hn
    unfold parseUintLoop
    by_cases hc : isDigit c = true
    · have hd := digitVal_le hc
      have hmono := le_decimalFrom (cs.takeWhile isDigit) (n * 10 + digitVal c)
      have htw : (c :: cs).takeWhile isDigit = c :: cs.takeWhile isDigit := by
        simp [List.takeWhile_cons, hc]
      have hall : (c :: cs).all isDigit = cs.all isDigit := by
        rw [List.all_cons, hc, Bool.true_and]
      rw [if_pos hc, htw, hall, decimalFrom_cons, decimalFrom_cons]
      unfold maxUint64 at *
      by_cases hcut : n ≥ 18446744073709551615 / 10 + 1
      · rw [if_pos hcut, if_pos (by omega)]
      · rw [if_neg hcut]
        simp only
        by_cases hov : (n * 10 % 18446744073709551616 + digitVal c) % 18446744073709551616
              < n * 10 % 18446744073709551616 ∨
            (n * 10 % 18446744073709551616 + digitVal c) % 18446744073709551616
              > 18446744073709551615
        · rw [if_pos hov, if_pos (by omega)]
        · rw [if_neg hov]
          have hEq : (n * 10 % 18446744073709551616 + digitVal c) % 18446744073709551616
              = n * 10 + digitVal c := by omega
          rw [hEq]
          exact ih _ (by omega)
    · have htw : (c :: cs).takeWhile isDigit = [] := by
        simp [List.takeWhile_cons, hc]
      have hall : (c :: cs).all isDigit = false := by
        rw [List.all_cons]
        simp [hc]
      rw [if_neg hc, htw, hall]
      have h0 : ¬ decimalFrom n [] > maxUint64 := by
        show ¬ n > maxUint64
        omega
      rw [if_neg h0]
      simp

theorem takeWhile_all_digits (l : List Char) : (l.takeWhile isDigit).all isDigit = true := by
  rw [List.all_eq_true]
  intro x hx
  exact List.mem_takeWhile_imp hx

theorem takeWhile_of_all (l : List Char) (h : l.all isDigit = true) :
    l.takeWhile isDigit = l := by
  rw [List.takeWhile_eq_self_iff]
  intro x hx
  exact List.all_eq_true.mp h x hx

/-- At most 18 leading digits denote a number below `10 ^ 18`. -/
theorem decimalFrom_takeWhile_small (l : List Char) (hlen : l.length ≤ 18) :
    decimalFrom 0 (l.takeWhile isDigit) < 1000000000000000000 := by
  have hb := decimalFrom_lt (l.takeWhile isDigit) (takeWhile_all_digits l) 0
  have hl : (l.takeWhile isDigit).length ≤ 18 :=
    le_trans (List.takeWhile_sublist isDigit).length_le hlen
  have hp : 10 ^ (l.takeWhile isDigit).length ≤ 10 ^ 18 :=
    Nat.pow_le_pow_right (by decide) hl
  have h18 : (10 : Nat) ^ 18 = 1000000000000000000 := by norm_num
  omega

theorem unsignedPart_cons (c : Char) (cs : List Char) :
    unsignedPart (c :: cs) = if c = '-' ∨ c = '+' then cs else c :: cs := rfl

theorem minusSign_cons (c : Char) (cs : List Char) :
    minusSign (c :: cs) = decide (c = '-') := rfl

theorem ParseUint_ref (ds : List Char) (hne : ds ≠ []) :
    ParseUint ds =
      if decimalFrom 0 (ds.takeWhile isDigit) > maxUint64 then
        (maxUint64, some NumError.rangeErr)
      else if ds.all isDigit = true then (decimalFrom 0 ds, none)
      else (0, some NumError.syntaxErr) := by
  unfold ParseUint
  rw [if_neg hne]
  exact parseUintLoop_ref ds 0 (by decide)

/-- `ParseInt` returns what the reference description says, on every string. -/
theorem ParseInt_ref (l : List Char) : ParseInt l = atoiRef l := by
  cases l with
  | nil => rfl
  | cons c cs =>
    have hrest : (if c = '+' ∨ c = '-' then cs else c :: cs) = unsignedPart (c :: cs) := by
      rw [unsignedPart_cons]
      simp only [or_comm]
    unfold atoiRef syntaxFailure rangeFailure boundOfSign
    rw [minusSign_cons]
    generalize unsignedPart (c :: cs) = ds at hrest
    by_cases hnil : ds = []
    · have hU : ParseUint ds = (0, some NumError.syntaxErr) := by
        unfold ParseUint
        rw [if_pos hnil]
      rw [ParseInt_syntax_case c cs 0 (by rw [hrest]; exact hU)]
      simp [hnil]
    · have hU := ParseUint_ref ds hnil
      unfold maxUint64 at hU ⊢
      by_cases hover : decimalFrom 0 (ds.takeWhile isDigit) > 18446744073709551615
      · rw [if_pos hover] at hU
        rw [ParseInt_range_case c cs 18446744073709551615 (by rw [hrest]; exact hU)]
        have hle : ¬ decimalFrom 0 (ds.takeWhile isDigit) ≤ 18446744073709551615 := by
          omega
        by_cases hneg : c = '-'
        · simp [hnil, hover, hle, hneg]
        · simp [hnil, hover, hle, hneg]
      · rw [if_neg hover] at hU
        have hle : decimalFrom 0 (ds.takeWhile isDigit) ≤ 18446744073709551615 := by
          omega
        by_cases hall : ds.all isDigit = true
        · rw [if_pos hall] at hU
          rw [ParseInt_value_case c cs (decimalFrom 0 ds) (by rw [hrest]; exact hU)]
          by_cases hneg : c = '-'
          · by_cases hbig : decimalFrom 0 ds > 9223372036854775808
            · simp [hnil, hover, hall, hneg, hbig]
            · simp [hnil, hover, hall, hneg, hbig]
          · by_cases hbig : decimalFrom 0 ds ≥ 9223372036854775808
            · simp [hnil, hover, hall, hneg, hbig]
            · simp [hnil, hover, hall, hneg, hbig]
        · rw [if_neg hall] at hU
          rw [ParseInt_syntax_case c cs 0 (by rw [hrest]; exact hU)]
          simp [hnil, hall, hle]

/-- `Atoi` returns what the reference description says, on every segment: both its fast
path and its slow path. -/
theorem Atoi_ref (s : String) : Atoi s = atoiRef s.data := by
  by_cases hfast : 0 < s.utf8ByteSize ∧ s.utf8ByteSize < 19
  · cases hdata : s.data with
    | nil => rw [atoi_of_nil s hdata]; rfl
    | cons c cs =>
      rw [atoi_fast_eq s c cs hdata hfast]
      have hlen : (c :: cs).length ≤ 18 := by
        have := length_le_utf8ByteSize s
        rw [hdata] at this
        omega
      have hdslen : (unsignedPart (c :: cs)).length ≤ 18 := by
        rw [unsignedPart_cons]
        split
        · simp only [List.length_cons] at hlen; omega
        · exact hlen
      unfold atoiRef syntaxFailure rangeFailure boundOfSign
      rw [minusSign_cons, ← unsignedPart_cons]
      have hsmall := decimalFrom_takeWhile_small (unsignedPart (c :: cs)) hdslen
      generalize unsignedPart (c :: cs) = ds at hsmall
      unfold maxUint64
      have hle : decimalFrom 0 (ds.takeWhile isDigit) ≤ 18446744073709551615 := by omega
      have hover : ¬ decimalFrom 0 (ds.takeWhile isDigit) > 18446744073709551615 := by
        omega
      by_cases hnil : ds = []
      · simp [hnil]
      · rw [if_neg hnil]
        cases hall : ds.all isDigit with
        | false =>
          rw [atoiFastLoop_nondigit ds hall 0]
          simp [hnil, hall, hle]
        | true =>
          have hloop := atoiFastLoop_digits ds hall 0
          rw [Nat.cast_zero] at hloop
          rw [hloop]
          rw [takeWhile_of_all ds hall] at hsmall
          have h1 : ¬ decimalFrom 0 ds > 9223372036854775808 := by omega
          have h2 : ¬ decimalFrom 0 ds ≥ 9223372036854775808 := by omega
          by_cases hneg : c = '-'
          · simp [hnil, hall, hover, hneg, h1]
          · simp [hnil, hall, hover, hneg, h2]
  · rw [atoi_slow_eq s hfast]
    exact ParseInt_ref s.data

/-! ## sort.Sort returns an ascending rearrangement -/

theorem less_adjacent (l r : List Student) (p x : Student) :
    Students.Less (l ++ p :: x :: r) (l.length + 1) l.length = decide (x.Id < p.Id) := by
  unfold Students.Less
  rw [List.getElem?_append_right (Nat.le_succ _), List.getElem?_append_right (le_refl _)]
  simp

theorem swap_adjacent (l r : List Student) (p x : Student) :
    Students.Swap (l ++ p :: x :: r) (l.length + 1) l.length = l ++ x :: p :: r := by
  unfold Students.Swap
  rw [List.getElem?_append_right (Nat.le_succ _), List.getElem?_append_right (le_refl _)]
  simp [List.set_append]

theorem insertionInner_eq (x : Student) (rp : List Student) :
    ∀ post : List Student,
      insertionInner (rp.reverse ++ x :: post) rp.length = (bubble x rp).reverse ++ post := by
  induction rp with
  | nil => intro post; rfl
  | cons p rp ih =>
    intro post
    have hs : (p :: rp).reverse ++ x :: post = rp.reverse ++ p :: x :: post := by simp
    have hlen : (p :: rp).length = rp.reverse.length + 1 := by simp
    rw [hs, hlen]
    show (if Students.Less (rp.reverse ++ p :: x :: post) (rp.reverse.length + 1)
            rp.reverse.length
          then insertionInner (Students.Swap (rp.reverse ++ p :: x :: post)
            (rp.reverse.length + 1) rp.reverse.length) rp.reverse.length
          else rp.reverse ++ p :: x :: post) = _
    rw [less_adjacent, swap_adjacent]
    by_cases hlt : x.Id < p.Id
    · have hb : bubble x (p :: rp) = p :: bubble x rp := by simp [bubble, hlt]
      rw [hb]
      simp only [hlt, decide_True, if_true, List.length_reverse]
      rw [ih (p :: post)]
      simp
    · have hb : bubble x (p :: rp) = x :: p :: rp := by simp [bubble, hlt]
      rw [hb]
      simp [hlt]

theorem insertionInner_insertRight (pre post : List Student) (x : Student) :
    insertionInner (pre ++ x :: post) pre.length = insertRight pre x ++ post := by
  have h := insertionInner_eq x pre.reverse post
  simpa [insertRight] using h

theorem bubble_perm (x : Student) (rp : List Student) : (bubble x rp).Perm (x :: rp) := by
  induction rp with
  | nil => exact List.Perm.refl _
  | cons p rp ih =>
    unfold bubble
    by_cases hlt : x.Id < p.Id
    · rw [if_pos hlt]
      exact (List.Perm.cons p ih).trans (List.Perm.swap x p rp)
    · rw [if_neg hlt]

theorem bubble_desc (x : Student) (rp : List Student)
    (h : rp.Pairwise (fun a b => b.Id ≤ a.Id)) :
    (bubble x rp).Pairwise (fun a b => b.Id ≤ a.Id) := by
  induction rp with
  | nil => simp [bubble]
  | cons p rp ih =>
    unfold bubble
    have hp := List.pairwise_cons.mp h
    by_cases hlt : x.Id < p.Id
    · rw [if_pos hlt]
      refine List.pairwise_cons.mpr ⟨?_, ih hp.2⟩
      intro a ha
      rcases List.mem_cons.mp ((bubble_perm x rp).mem_iff.mp ha) with ha | ha
      · rw [ha]; omega
      · exact hp.1 a ha
    · rw [if_neg hlt]
      refine List.pairwise_cons.mpr ⟨?_, h⟩
      intro a ha
      rcases List.mem_cons.mp ha with ha | ha
      · rw [ha]; omega
      · have := hp.1 a ha
        omega

theorem insertRight_perm (pre : List Student) (x : Student) :
    (insertRight pre x).Perm (pre ++ [x]) := by
  unfold insertRight
  refine (List.reverse_perm _).trans ((bubble_perm x pre.reverse).trans ?_)
  have hcomm : ([x] ++ pre).Perm (pre ++ [x]) := List.perm_append_comm
  exact (List.Perm.cons x (List.reverse_perm pre)).trans hcomm

theorem insertRight_asc (pre : List Student) (x : Student) (h : AscId pre) :
    AscId (insertRight pre x) := by
  unfold insertRight AscId
  rw [List.pairwise_reverse]
  apply bubble_desc
  rw [← List.pairwise_reverse, List.reverse_reverse]
  exact h

theorem insertRight_length (pre : List Student) (x : Student) :
    (insertRight pre x).length = pre.length + 1 := by
  rw [(insertRight_perm pre x).length_eq]
  simp

theorem foldl_insertRight_length (l : List Student) :
    ∀ acc : List Student, (l.foldl insertRight acc).length = acc.length + l.length := by
  induction l with
  | nil => intro acc; rfl
  | cons a l ih =>
    intro acc
    rw [List.foldl_cons, ih, insertRight_length, List.length_cons]
    omega

theorem foldl_insertRight_perm (l : List Student) :
    ∀ acc : List Student, (l.foldl insertRight acc).Perm (acc ++ l) := by
  induction l with
  | nil => intro acc; simp
  | cons a l ih =>
    intro acc
    rw [List.foldl_cons]
    refine (ih _).trans ?_
    have h := (insertRight_perm acc a).append_right l
    simpa using h

theorem foldl_insertRight_asc (l : List Student) :
    ∀ acc : List Student, AscId acc → AscId (l.foldl insertRight acc) := by
  induction l with
  | nil => intro acc h; exact h
  | cons a l ih =>
    intro acc h
    rw [List.foldl_cons]
    exact ih _ (insertRight_asc acc a h)

theorem insertionOuter_eq (s : Students) :
    ∀ k : Nat, k + 1 ≤ s.length →
      (List.range' 1 k).foldl insertionInner s
        = (s.take (k + 1)).foldl insertRight [] ++ s.drop (k + 1) := by
  intro k
  induction k with
  | zero =>
    intro hk
    cases s with
    | nil => simp at hk
    | cons a s => rfl
  | succ k ih =>
    intro hk
    have hlt : k + 1 < s.length := by omega
    rw [List.range'_concat, List.foldl_append, ih (by omega)]
    rw [List.drop_eq_getElem_cons hlt]
    have hlen : ((s.take (k + 1)).foldl insertRight []).length = k + 1 := by
      rw [foldl_insertRight_length]
      simp
      omega
    have hidx : 1 + 1 * k = ((s.take (k + 1)).foldl insertRight []).length := by
      rw [hlen]; omega
    rw [List.foldl_cons, List.foldl_nil, hidx, insertionInner_insertRight]
    have htake : s.take (k + 1 + 1) = s.take (k + 1) ++ [s[k + 1]] := by
      rw [List.take_succ, List.getElem?_eq_getElem hlt]
      rfl
    rw [htake, List.foldl_append]
    rfl

theorem sortSort_eq (s : Students) : sortSort s = s.foldl insertRight [] := by
  unfold sortSort Students.Len
  cases s with
  | nil => rfl
  | cons a s =>
    have h := insertionOuter_eq (a :: s) s.length (by simp)
    simp only [List.length_cons, Nat.add_sub_cancel]
    rw [h]
    have h1 : (a :: s).take (s.length + 1) = a :: s := by
      rw [List.take_of_length_le]; simp
    have h2 : (a :: s).drop (s.length + 1) = [] := by
      rw [List.drop_of_length_le]; simp
    rw [h1, h2, List.append_nil]

theorem sortSort_perm (s : Students) : (sortSort s).Perm s := by
  rw [sortSort_eq]
  simpa using foldl_insertRight_perm s []

theorem sortSort_asc (s : Students) : AscId (sortSort s) := by
  rw [sortSort_eq]
  exact foldl_insertRight_asc s [] List.Pairwise.nil

/-! ## The invariant of the reachable states -/

theorem list_fst (g : Globals) (w : ResponseWriter) (iter : List Student) :
    (GetStudentListHandler g w iter).1 = g := rfl

theorem get_fst_cases (g : Globals) (w : ResponseWriter) (seg : String) :
    (GetStudentHandler g w seg).1 = g ∨
    (∃ n st, g.students.lookup n = some st ∧
      (GetStudentHandler g w seg).1 = { g with lastQueriedId := n }) := by
  unfold GetStudentHandler
  split
  · exact Or.inl rfl
  · split
    · exact Or.inl rfl
    · rename_i st hl
      exact Or.inr ⟨_, st, hl, rfl⟩

theorem delete_fst_cases (g : Globals) (w : ResponseWriter) (seg : String) :
    (DeleteStudentHandler g w seg).1 = g ∨
    (∃ n, (DeleteStudentHandler g w seg).1 = { g with students := g.students.erase n }) := by
  unfold DeleteStudentHandler
  simp only
  split
  · exact Or.inl rfl
  · exact Or.inr ⟨_, rfl⟩

theorem next_fst_cases (g : Globals) (w : ResponseWriter) :
    (GetNextStudentHandler g w).1 = g ∨
    (∃ st, g.students.lookup (g.lastQueriedId + 1) = some st ∧
      (GetNextStudentHandler g w).1 = { g with lastQueriedId := g.lastQueriedId + 1 }) := by
  unfold GetNextStudentHandler
  split
  · exact Or.inl rfl
  · simp only
    split
    · exact Or.inl rfl
    · rename_i st hl
      exact Or.inr ⟨st, hl, rfl⟩

theorem post_fst_some (g : Globals) (w : ResponseWriter) (p : Student) :
    (PostStudentHandler g w (some p)).1
      = { g with lastId := g.lastId + 1,
                 students := g.students.insert (g.lastId + 1)
                   { p with Id := g.lastId + 1 } } := rfl

theorem post_fst_none (g : Globals) (w : ResponseWriter) :
    (PostStudentHandler g w none).1 = g := rfl

theorem mem_of_lookup {m : StudentMap} {k : Int} {st : Student}
    (h : m.lookup k = some st) : k ∈ m :=
  AList.lookup_isSome.mp (by rw [h]; rfl)

theorem seed_entries :
    seed.students.entries =
      (seedStudents.reverse.map (fun s => (⟨s.Id, s⟩ : Sigma (fun _ : Int => Student)))) := by
  decide

theorem inv_seed : Inv seed := by
  refine ⟨by decide, ?_, ?_, Or.inl rfl⟩
  · intro k hk
    have hk' : k ∈ seed.students.keys := hk
    have hkeys : seed.students.keys = [10, 9, 8, 7, 6, 5, 4, 3, 2, 1] := by decide
    rw [hkeys] at hk'
    have h10 : seed.lastId = 10 := rfl
    rw [h10]
    simp only [List.mem_cons, List.mem_singleton, List.not_mem_nil, or_false] at hk'
    omega
  · intro k v hl
    have hmem : (⟨k, v⟩ : Sigma (fun _ : Int => Student)) ∈ seed.students.entries :=
      AList.mem_lookup_iff.mp (by rw [hl]; exact rfl)
    rw [seed_entries] at hmem
    obtain ⟨s, _, hs⟩ := List.mem_map.mp hmem
    cases hs
    rfl

theorem inv_handle (g : Globals) (op : Op) (h : Inv g) : Inv (handle g op).1 := by
  obtain ⟨h10, hkeys, hid, hq⟩ := h
  cases op with
  | list iter => exact ⟨h10, hkeys, hid, hq⟩
  | get seg =>
    rcases get_fst_cases g newResponseWriter seg with hE | ⟨n, st, hl, hE⟩
    · simp only [handle, hE]; exact ⟨h10, hkeys, hid, hq⟩
    · simp only [handle, hE]
      exact ⟨h10, hkeys, hid, Or.inr (hkeys n (mem_of_lookup hl))⟩
  | create decoded =>
    cases decoded with
    | none => exact ⟨h10, hkeys, hid, hq⟩
    | some p =>
      simp only [handle, post_fst_some]
      refine ⟨by simp only; omega, ?_, ?_, ?_⟩
      · intro k hk
        simp only [AList.mem_insert] at hk
        rcases hk with hk | hk
        · simp only; omega
        · have := hkeys k hk
          simp only; omega
      · intro k v hl
        simp only at hl
        by_cases hk : k = g.lastId + 1
        · subst hk
          rw [AList.lookup_insert] at hl
          cases hl
          rfl
        · rw [AList.lookup_insert_ne hk] at hl
          exact hid k v hl
      · simp only
        rcases hq with hq | hq
        · exact Or.inl hq
        · exact Or.inr ⟨hq.1, by omega⟩
  | delete seg =>
    rcases delete_fst_cases g newResponseWriter seg with hE | ⟨n, hE⟩
    · simp only [handle, hE]; exact ⟨h10, hkeys, hid, hq⟩
    · simp only [handle, hE]
      refine ⟨h10, ?_, ?_, hq⟩
      · intro k hk
        simp only [AList.mem_erase] at hk
        exact hkeys k hk.2
      · intro k v hl
        simp only at hl
        by_cases hk : k = n
        · subst hk
          rw [AList.lookup_erase] at hl
          cases hl
        · rw [AList.lookup_erase_ne hk] at hl
          exact hid k v hl
  | next =>
    rcases next_fst_cases g newResponseWriter with hE | ⟨st, hl, hE⟩
    · simp only [handle, hE]; exact ⟨h10, hkeys, hid, hq⟩
    · simp only [handle, hE]
      exact ⟨h10, hkeys, hid, Or.inr (hkeys _ (mem_of_lookup hl))⟩

theorem run_nil (g : Globals) : run g [] = g := rfl

theorem run_cons (g : Globals) (op : Op) (ops : List Op) :
    run g (op :: ops) = run (handle g op).1 ops := rfl

theorem run_append (g : Globals) (ops₁ ops₂ : List Op) :
    run g (ops₁ ++ ops₂) = run (run g ops₁) ops₂ := by
  unfold run
  rw [List.foldl_append]

theorem inv_run (ops : List Op) : ∀ g : Globals, Inv g → Inv (run g ops) := by
  induction ops with
  | nil => intro g h; exact h
  | cons op ops ih => intro g h; rw [run_cons]; exact ih _ (inv_handle g op h)

theorem inv_of_reachable {g : Globals} (h : Reachable g) : Inv g := by
  obtain ⟨ops, rfl⟩ := h
  exact inv_run ops seed inv_seed

theorem reachable_seed : Reachable seed := ⟨[], rfl⟩

theorem reachable_handle {g : Globals} (h : Reachable g) (op : Op) :
    Reachable (handle g op).1 := by
  obtain ⟨ops, rfl⟩ := h
  exact ⟨ops ++ [op], by rw [run_append]; rfl⟩

theorem lastId_le_handle (g : Globals) (op : Op) : g.lastId ≤ (handle g op).1.lastId := by
  cases op with
  | list iter => exact le_refl _
  | get seg =>
    rcases get_fst_cases g newResponseWriter seg with hE | ⟨n, st, _, hE⟩ <;>
      simp only [handle, hE] <;> exact le_refl _
  | create decoded =>
    cases decoded with
    | none => exact le_refl _
    | some p => simp only [handle, post_fst_some]; omega
  | delete seg =>
    rcases delete_fst_cases g newResponseWriter seg with hE | ⟨n, hE⟩ <;>
      simp only [handle, hE] <;> exact le_refl _
  | next =>
    rcases next_fst_cases g newResponseWriter with hE | ⟨st, _, hE⟩ <;>
      simp only [handle, hE] <;> exact le_refl _

theorem lastId_le_run (ops : List Op) : ∀ g : Globals, g.lastId ≤ (run g ops).lastId := by
  induction ops with
  | nil => intro g; exact le_refl _
  | cons op ops ih =>
    intro g
    rw [run_cons]
    exact le_trans (lastId_le_handle g op) (ih _)

/-! ## The loop of the list handler -/

theorem WriteHeader_idem (w : ResponseWriter) (c d : Nat) :
    (w.WriteHeader c).WriteHeader d = w.WriteHeader c := by
  unfold ResponseWriter.WriteHeader
  by_cases h : w.wroteHeader = true
  · simp [h]
  · simp [h]

theorem listLoop_snd (iter : List Student) :
    ∀ acc : Students × ResponseWriter,
      (iter.foldl listLoopBody acc).2
        = if iter = [] then acc.2 else acc.2.WriteHeader StatusOK := by
  induction iter with
  | nil => intro acc; rfl
  | cons a l ih =>
    intro acc
    rw [List.foldl_cons, ih, if_neg (List.cons_ne_nil a l)]
    by_cases hl : l = []
    · rw [if_pos hl]; rfl
    · rw [if_neg hl]
      exact WriteHeader_idem _ _ _

theorem listLoop_perm (iter : List Student) :
    ∀ acc : Students × ResponseWriter,
      (iter.foldl listLoopBody acc).1.Perm (acc.1 ++ iter) := by
  induction iter with
  | nil => intro acc; simp
  | cons a l ih =>
    intro acc
    rw [List.foldl_cons]
    refine (ih _).trans ?_
    have h : (listLoopBody acc a).1.Perm (acc.1 ++ [a]) := sortSort_perm _
    simpa using h.append_right l

theorem listLoop_asc (iter : List Student) :
    ∀ acc : Students × ResponseWriter, AscId acc.1 →
      AscId (iter.foldl listLoopBody acc).1 := by
  induction iter with
  | nil => intro acc h; exact h
  | cons a l ih =>
    intro acc _
    rw [List.foldl_cons]
    exact ih _ (sortSort_asc _)

/-- The list handler, in closed form. -/
theorem list_eq (g : Globals) (iter : List Student) :
    ∃ l : List Student, l.Perm iter ∧ AscId l ∧
      GetStudentListHandler g newResponseWriter iter
        = (g, ((if iter = [] then newResponseWriter
                else newResponseWriter.WriteHeader StatusOK).HeaderSet "Content-Type"
                  "application/json").Encode (Body.students l)) := by
  refine ⟨(iter.foldl listLoopBody (([] : Students), newResponseWriter)).1, ?_, ?_, ?_⟩
  · simpa using listLoop_perm iter (([] : Students), newResponseWriter)
  · exact listLoop_asc iter _ List.Pairwise.nil
  · unfold GetStudentListHandler
    simp only [listLoop_snd]

theorem list_status (iter : List Student) (l : List Student) :
    (((if iter = [] then newResponseWriter
        else newResponseWriter.WriteHeader StatusOK).HeaderSet "Content-Type"
          "application/json").Encode (Body.students l)).status = 200 ∧
    (((if iter = [] then newResponseWriter
        else newResponseWriter.WriteHeader StatusOK).HeaderSet "Content-Type"
          "application/json").Encode (Body.students l)).body = [Body.students l] := by
  by_cases h : iter = []
  · rw [if_pos h]; exact ⟨rfl, rfl⟩
  · rw [if_neg h]; exact ⟨rfl, rfl⟩

theorem strict_of_asc_nodup (l : List Student) (hasc : AscId l)
    (hnd : (l.map (fun s => s.Id)).Nodup) : l.Pairwise (fun a b => a.Id < b.Id) := by
  have hne : l.Pairwise (fun a b => a.Id ≠ b.Id) := List.pairwise_map.mp hnd
  exact (hasc.and hne).imp (fun h => lt_of_le_of_ne h.1 h.2)

/-! ## The handlers, case by case -/

theorem next_of_zero (g : Globals) (w : ResponseWriter) (h0 : g.lastQueriedId = 0) :
    GetNextStudentHandler g w
      = (g, httpError w "No student has been queried yet" StatusNotFound) := by
  unfold GetNextStudentHandler
  rw [if_pos h0]

theorem next_of_none (g : Globals) (w : ResponseWriter) (h0 : g.lastQueriedId ≠ 0)
    (hl : g.students.lookup (g.lastQueriedId + 1) = none) :
    GetNextStudentHandler g w = (g, w.WriteHeader StatusNotFound) := by
  unfold GetNextStudentHandler
  rw [if_neg h0]
  simp only [hl]

theorem next_of_some (g : Globals) (w : ResponseWriter) (h0 : g.lastQueriedId ≠ 0)
    (st : Student) (hl : g.students.lookup (g.lastQueriedId + 1) = some st) :
    GetNextStudentHandler g w
      = ({ g with lastQueriedId := g.lastQueriedId + 1 },
          ((w.WriteHeader StatusOK).HeaderSet "Content-Type" "application/json").Encode
            (Body.student st)) := by
  unfold GetNextStudentHandler
  rw [if_neg h0]
  simp only [hl]

theorem get_of_error (g : Globals) (w : ResponseWriter) (seg : String) (n : Int)
    (e : NumError) (hp : Atoi seg = (n, some e)) :
    GetStudentHandler g w seg = (g, httpError w "Invalid student ID" StatusBadRequest) := by
  unfold GetStudentHandler
  simp only [hp]

theorem get_of_none (g : Globals) (w : ResponseWriter) (seg : String) (n : Int)
    (hp : Atoi seg = (n, none)) (hl : g.students.lookup n = none) :
    GetStudentHandler g w seg = (g, httpError w "Student not found" StatusNotFound) := by
  unfold GetStudentHandler
  simp only [hp, hl]

theorem get_of_some (g : Globals) (w : ResponseWriter) (seg : String) (n : Int)
    (hp : Atoi seg = (n, none)) (st : Student) (hl : g.students.lookup n = some st) :
    GetStudentHandler g w seg
      = ({ g with lastQueriedId := n },
          ((w.WriteHeader StatusOK).HeaderSet "Content-Type" "application/json").Encode
            (Body.student st)) := by
  unfold GetStudentHandler
  simp only [hp, hl]

/-- A Get that answers 200 parsed its segment and found a record. -/
theorem get_ok_inv (g : Globals) (seg : String)
    (h : (GetStudentHandler g newResponseWriter seg).2.status = 200) :
    ∃ st, Atoi seg = ((Atoi seg).1, none) ∧ g.students.lookup (Atoi seg).1 = some st := by
  rcases hA : Atoi seg with ⟨n, e⟩
  cases e with
  | some e =>
    rw [get_of_error g _ seg n e hA] at h
    exact absurd (show (400 : Nat) = 200 from h) (by decide)
  | none =>
    cases hl : g.students.lookup n with
    | none =>
      rw [get_of_none g _ seg n hA hl] at h
      exact absurd (show (404 : Nat) = 200 from h) (by decide)
    | some st => exact ⟨st, rfl, rfl⟩

/-! ## Further facts used by the claims -/

theorem status_httpError_new (msg : String) (code : Nat) :
    (httpError newResponseWriter msg code).status = code := rfl

theorem values_ids (m : StudentMap)
    (hid : ∀ k v, m.lookup k = some v → v.Id = k) :
    (values m).map (fun s => s.Id) = m.keys := by
  unfold values AList.keys List.keys
  rw [List.map_map]
  apply List.map_congr_left
  intro e he
  have hl : m.lookup e.1 = some e.2 := by
    have : e.2 ∈ m.lookup e.1 := AList.mem_lookup_iff.mpr (by cases e; exact he)
    exact this
  exact hid e.1 e.2 hl

theorem values_ids_nodup (g : Globals) (h : Inv g) :
    ((values g.students).map (fun s => s.Id)).Nodup := by
  rw [values_ids g.students h.2.2.1]
  exact AList.keys_nodup _

theorem mem_values_iff (m : StudentMap) (st : Student) :
    st ∈ values m ↔ ∃ k, m.lookup k = some st := by
  unfold values
  rw [List.mem_map]
  constructor
  · rintro ⟨e, he, rfl⟩
    exact ⟨e.1, AList.mem_lookup_iff.mpr (by cases e; exact he)⟩
  · rintro ⟨k, hk⟩
    exact ⟨⟨k, st⟩, AList.mem_lookup_iff.mp hk, rfl⟩

theorem get_status_400_iff (g : Globals) (seg : String) :
    (GetStudentHandler g newResponseWriter seg).2.status = 400 ↔ (Atoi seg).2 ≠ none := by
  rcases hA : Atoi seg with ⟨n, e⟩
  cases e with
  | some e =>
    rw [get_of_error g _ seg n e hA]
    exact ⟨fun _ => by simp, fun _ => rfl⟩
  | none =>
    cases hl : g.students.lookup n with
    | none =>
      rw [get_of_none g _ seg n hA hl]
      exact ⟨fun h => absurd (show (404 : Nat) = 400 from h) (by decide),
        fun h => absurd rfl h⟩
    | some st =>
      rw [get_of_some g _ seg n hA st hl]
      exact ⟨fun h => absurd (show (200 : Nat) = 400 from h) (by decide),
        fun h => absurd rfl h⟩

theorem atoi_error_iff (seg : String) : (Atoi seg).2 ≠ none ↔ intOfString seg = none := by
  constructor
  · intro h
    cases hi : intOfString seg with
    | none => rfl
    | some v => rw [Atoi_some seg v hi] at h; exact absurd rfl h
  · exact Atoi_none seg

theorem isDigit_not_sign {c : Char} (h : isDigit c = true) : ¬ (c = '-' ∨ c = '+') := by
  rintro (rfl | rfl) <;> revert h <;> decide

/-- On a segment made of digits only, the reference reading fails exactly when the number
exceeds the largest `int`. -/
theorem intOfString_digits (seg : String) (hm : matchesIdPattern seg = true) :
    intOfString seg =
      if (decimalFrom 0 seg.data : Int) ≤ maxInt then some (decimalFrom 0 seg.data : Int)
      else none := by
  unfold matchesIdPattern at hm
  rw [Bool.and_eq_true] at hm
  obtain ⟨hne, hall⟩ := hm
  unfold intOfString
  cases hdata : seg.data with
  | nil => rw [hdata] at hne; simp at hne
  | cons c cs =>
    rw [hdata] at hall
    have hc : isDigit c = true := by
      rw [List.all_cons, Bool.and_eq_true] at hall
      exact hall.1
    have hsign := isDigit_not_sign hc
    have hneg : ¬ c = '-' := fun e => hsign (Or.inl e)
    unfold intOfChars
    simp only [if_neg hsign, if_neg hneg]
    rw [if_neg (by simp [hall])]
    have h0 : minInt ≤ (decimalFrom 0 (c :: cs) : Int) := by
      unfold minInt
      omega
    simp only [h0, true_and]

/-- On a segment made of digits only that `Atoi` rejects, the value returned next to the
error is the largest `int`. -/
theorem atoi_digits_error (seg : String) (hm : matchesIdPattern seg = true)
    (herr : (Atoi seg).2 ≠ none) : Atoi seg = (maxInt, some NumError.rangeErr) := by
  have hnone := (atoi_error_iff seg).mp herr
  rw [intOfString_digits seg hm] at hnone
  have hbig : ¬ (decimalFrom 0 seg.data : Int) ≤ maxInt := by
    intro hle
    rw [if_pos hle] at hnone
    cases hnone
  unfold matchesIdPattern at hm
  rw [Bool.and_eq_true] at hm
  obtain ⟨_, hall⟩ := hm
  have hslow : ¬ (0 < seg.utf8ByteSize ∧ seg.utf8ByteSize < 19) := by
    intro hfast
    have hlen := length_le_utf8ByteSize seg
    have hb := decimalFrom_lt seg.data hall 0
    have hp : 10 ^ seg.data.length ≤ 10 ^ 18 :=
      Nat.pow_le_pow_right (by decide) (by omega)
    have h18 : (10 : Nat) ^ 18 = 1000000000000000000 := by norm_num
    apply hbig
    unfold maxInt
    omega
  rw [atoi_slow_eq seg hslow]
  cases hdata : seg.data with
  | nil => rw [hdata] at hbig; simp [decimalFrom, maxInt] at hbig
  | cons c cs =>
    rw [hdata] at hall hbig
    have hc : isDigit c = true := by
      rw [List.all_cons, Bool.and_eq_true] at hall
      exact hall.1
    have hsign : ¬ (c = '+' ∨ c = '-') := fun h => isDigit_not_sign hc (Or.symm h)
    have hneg : ¬ (decide (c = '-') = true) := by
      simp only [decide_eq_true_eq]
      exact fun e => hsign (Or.inr e)
    have hU := ParseUint_digits (c :: cs) (List.cons_ne_nil c cs) hall
    unfold maxInt at hbig
    by_cases hle : decimalFrom 0 (c :: cs) ≤ maxUint64
    · rw [if_pos hle] at hU
      rw [ParseInt_value_case c cs (decimalFrom 0 (c :: cs)) (by rw [if_neg hsign]; exact hU)]
      rw [if_pos ⟨hneg, by omega⟩]
    · rw [if_neg hle] at hU
      rw [ParseInt_range_case c cs maxUint64 (by rw [if_neg hsign]; exact hU)]
      rw [if_pos ⟨hneg, by unfold maxUint64; omega⟩]

theorem delete_of_absent (g : Globals) (w : ResponseWriter) (seg : String)
    (h : (Atoi seg).1 ∉ g.students) :
    DeleteStudentHandler g w seg = (g, w.WriteHeader StatusNotFound) := by
  have hl : g.students.lookup (Atoi seg).1 = none := AList.lookup_eq_none.mpr h
  unfold DeleteStudentHandler
  simp only [hl]

theorem delete_status (g : Globals) (seg : String) :
    (DeleteStudentHandler g newResponseWriter seg).2.status = 404 ∨
    (DeleteStudentHandler g newResponseWriter seg).2.status = 200 := by
  unfold DeleteStudentHandler
  simp only
  split
  · exact Or.inl rfl
  · exact Or.inr rfl

theorem delete_of_present (g : Globals) (w : ResponseWriter) (seg : String) (st : Student)
    (h : g.students.lookup (Atoi seg).1 = some st) :
    DeleteStudentHandler g w seg
      = ({ g with students := g.students.erase (Atoi seg).1 }, w.WriteHeader StatusOK) := by
  unfold DeleteStudentHandler
  simp only [h]

/-- The three ways in which Get ends. -/
theorem get_cases (g : Globals) (w : ResponseWriter) (seg : String) :
    (∃ e, (Atoi seg).2 = some e ∧
      GetStudentHandler g w seg = (g, httpError w "Invalid student ID" StatusBadRequest)) ∨
    (Atoi seg = ((Atoi seg).1, none) ∧ g.students.lookup (Atoi seg).1 = none ∧
      GetStudentHandler g w seg = (g, httpError w "Student not found" StatusNotFound)) ∨
    (∃ st, Atoi seg = ((Atoi seg).1, none) ∧ g.students.lookup (Atoi seg).1 = some st ∧
      GetStudentHandler g w seg
        = ({ g with lastQueriedId := (Atoi seg).1 }, okStudent w st)) := by
  rcases hA : Atoi seg with ⟨n, e⟩
  cases e with
  | some e => exact Or.inl ⟨e, rfl, get_of_error g w seg n e hA⟩
  | none =>
    cases hl : g.students.lookup n with
    | none => exact Or.inr (Or.inl ⟨rfl, rfl, get_of_none g w seg n hA hl⟩)
    | some st => exact Or.inr (Or.inr ⟨st, rfl, rfl, get_of_some g w seg n hA st hl⟩)

/-- The two ways in which Delete ends. -/
theorem delete_cases (g : Globals) (w : ResponseWriter) (seg : String) :
    (g.students.lookup (Atoi seg).1 = none ∧
      DeleteStudentHandler g w seg = (g, w.WriteHeader StatusNotFound)) ∨
    (∃ st, g.students.lookup (Atoi seg).1 = some st ∧
      DeleteStudentHandler g w seg
        = ({ g with students := g.students.erase (Atoi seg).1 },
            w.WriteHeader StatusOK)) := by
  cases hl : g.students.lookup (Atoi seg).1 with
  | none => exact Or.inl ⟨rfl, delete_of_absent g w seg (AList.lookup_eq_none.mp hl)⟩
  | some st => exact Or.inr ⟨st, rfl, delete_of_present g w seg st hl⟩

/-- The three ways in which Next ends. -/
theorem next_cases (g : Globals) (w : ResponseWriter) :
    (g.lastQueriedId = 0 ∧
      GetNextStudentHandler g w
        = (g, httpError w "No student has been queried yet" StatusNotFound)) ∨
    (g.lastQueriedId ≠ 0 ∧ g.students.lookup (g.lastQueriedId + 1) = none ∧
      GetNextStudentHandler g w = (g, w.WriteHeader StatusNotFound)) ∨
    (∃ st, g.lastQueriedId ≠ 0 ∧ g.students.lookup (g.lastQueriedId + 1) = some st ∧
      GetNextStudentHandler g w
        = ({ g with lastQueriedId := g.lastQueriedId + 1 }, okStudent w st)) := by
  by_cases h0 : g.lastQueriedId = 0
  · exact Or.inl ⟨h0, next_of_zero g w h0⟩
  · cases hl : g.students.lookup (g.lastQueriedId + 1) with
    | none => exact Or.inr (Or.inl ⟨h0, rfl, next_of_none g w h0 hl⟩)
    | some st => exact Or.inr (Or.inr ⟨st, h0, rfl, next_of_some g w h0 st hl⟩)

theorem okStudent_new (st : Student) :
    (okStudent newResponseWriter st).status = 200 ∧
    (okStudent newResponseWriter st).body = [Body.student st] ∧
    bodyStudent (okStudent newResponseWriter st) = some st :=
  ⟨rfl, rfl, rfl⟩

/-- A key that is absent and not above `lastId` stays absent, whatever the request. -/
theorem absent_handle (g : Globals) (op : Op) (k : Int) (hk : k ∉ g.students)
    (hle : k ≤ g.lastId) : k ∉ (handle g op).1.students := by
  cases op with
  | list iter => exact hk
  | get seg =>
    rcases get_fst_cases g newResponseWriter seg with hE | ⟨n, st, _, hE⟩ <;>
      simp only [handle, hE] <;> exact hk
  | create decoded =>
    cases decoded with
    | none => exact hk
    | some p =>
      simp only [handle, post_fst_some, AList.mem_insert]
      rintro (h | h)
      · omega
      · exact hk h
  | delete seg =>
    rcases delete_fst_cases g newResponseWriter seg with hE | ⟨n, hE⟩
    · simp only [handle, hE]; exact hk
    · simp only [handle, hE, AList.mem_erase]
      exact fun h => hk h.2
  | next =>
    rcases next_fst_cases g newResponseWriter with hE | ⟨st, _, hE⟩ <;>
      simp only [handle, hE] <;> exact hk

theorem absent_run (ops : List Op) (k : Int) :
    ∀ g : Globals, k ∉ g.students → k ≤ g.lastId → k ∉ (run g ops).students := by
  induction ops with
  | nil => intro g hk _; exact hk
  | cons op ops ih =>
    intro g hk hle
    rw [run_cons]
    exact ih _ (absent_handle g op k hk hle) (le_trans hle (lastId_le_handle g op))

/-- A request other than Create and Delete leaves the map and `lastId` as they are. -/
theorem students_handle_read (g : Globals) (op : Op) (h : isCreateOrDelete op = false) :
    (handle g op).1.students = g.students ∧ (handle g op).1.lastId = g.lastId := by
  cases op with
  | list iter => exact ⟨rfl, rfl⟩
  | get seg =>
    rcases get_fst_cases g newResponseWriter seg with hE | ⟨n, st, _, hE⟩ <;>
      simp [handle, hE]
  | create decoded => cases h
  | delete seg => cases h
  | next =>
    rcases next_fst_cases g newResponseWriter with hE | ⟨st, _, hE⟩ <;>
      simp [handle, hE]

theorem students_run_read (ops : List Op) :
    ∀ g : Globals, (∀ op ∈ ops, isCreateOrDelete op = false) →
      (run g ops).students = g.students := by
  induction ops with
  | nil => intro g _; rfl
  | cons op ops ih =>
    intro g h
    rw [run_cons, ih _ (fun o ho => h o (List.mem_cons_of_mem _ ho))]
    exact (students_handle_read g op (h op (List.mem_cons_self _ _))).1

/-- A request leaves the cursor where it is, or it is a Get or a Next answered 200 with the
record stored under the new value of the cursor. -/
theorem handle_cursor_cases (g : Globals) (op : Op) :
    (handle g op).1.lastQueriedId = g.lastQueriedId ∨
    (isGetOrNext op = true ∧ ∃ st,
      (handle g op).2.status = 200 ∧ bodyStudent (handle g op).2 = some st ∧
      g.students.lookup (handle g op).1.lastQueriedId = some st) := by
  cases op with
  | list iter => exact Or.inl rfl
  | get seg =>
    rcases get_cases g newResponseWriter seg with ⟨e, _, hE⟩ | ⟨_, _, hE⟩ | ⟨st, _, hl, hE⟩
    · left; simp only [handle, hE]
    · left; simp only [handle, hE]
    · right
      have h1 : handle g (Op.get seg)
          = ({ g with lastQueriedId := (Atoi seg).1 }, okStudent newResponseWriter st) := hE
      rw [h1]
      exact ⟨rfl, st, rfl, rfl, hl⟩
  | create decoded =>
    cases decoded with
    | none => exact Or.inl rfl
    | some p => exact Or.inl rfl
  | delete seg =>
    rcases delete_cases g newResponseWriter seg with ⟨_, hE⟩ | ⟨st, _, hE⟩
    · left; simp only [handle, hE]
    · left; simp only [handle, hE]
  | next =>
    rcases next_cases g newResponseWriter with ⟨_, hE⟩ | ⟨_, _, hE⟩ | ⟨st, _, hl, hE⟩
    · left; simp only [handle, hE]
    · left; simp only [handle, hE]
    · right
      have h1 : handle g Op.next
          = ({ g with lastQueriedId := g.lastQueriedId + 1 },
              okStudent newResponseWriter st) := hE
      rw [h1]
      exact ⟨rfl, st, rfl, rfl, hl⟩

theorem run_snoc (g : Globals) (ops : List Op) (op : Op) :
    run g (ops ++ [op]) = (handle (run g ops) op).1 := by
  rw [run_append]
  rfl

theorem list_snd_globals (g g2 : Globals) (w : ResponseWriter) (iter : List Student) :
    (GetStudentListHandler g w iter).2 = (GetStudentListHandler g2 w iter).2 := rfl

/-- Two iteration orders of one map whose keys are the ids give the same response. -/
theorem list_response_unique (g : Globals) (hinv : Inv g) (iter₁ iter₂ : List Student)
    (h₁ : RangeOrder g.students iter₁) (h₂ : RangeOrder g.students iter₂) :
    GetStudentListHandler g newResponseWriter iter₁
      = GetStudentListHandler g newResponseWriter iter₂ := by
  obtain ⟨l₁, p₁, a₁, E₁⟩ := list_eq g iter₁
  obtain ⟨l₂, p₂, a₂, E₂⟩ := list_eq g iter₂
  have hv₁ : l₁.Perm (values g.students) := p₁.trans h₁
  have hv₂ : l₂.Perm (values g.students) := p₂.trans h₂
  have hnd := values_ids_nodup g hinv
  have s₁ := strict_of_asc_nodup l₁ a₁ (((hv₁.map _).nodup_iff).mpr hnd)
  have s₂ := strict_of_asc_nodup l₂ a₂ (((hv₂.map _).nodup_iff).mpr hnd)
  haveI : IsAntisymm Student (fun a b => a.Id < b.Id) :=
    ⟨fun a b hab hba => absurd hab (not_lt.mpr (le_of_lt hba))⟩
  have hl : l₁ = l₂ := List.eq_of_perm_of_sorted (hv₁.trans hv₂.symm) s₁ s₂
  have hnil : iter₁ = [] ↔ iter₂ = [] := by
    constructor
    · intro h
      subst h
      exact List.Perm.eq_nil (h₂.trans h₁.symm)
    · intro h
      subst h
      exact List.Perm.eq_nil (h₁.trans h₂.symm)
  rw [E₁, E₂, hl]
  by_cases h : iter₁ = []
  · rw [if_pos h, if_pos (hnil.mp h)]
  · rw [if_neg h, if_neg (fun h2 => h (hnil.mpr h2))]

theorem seed_keys (k : Int) : k ∈ seed.students ↔ 1 ≤ k ∧ k ≤ 10 := by
  have hkeys : seed.students.keys = [10, 9, 8, 7, 6, 5, 4, 3, 2, 1] := by decide
  have hmem : k ∈ seed.students ↔ k ∈ seed.students.keys := Iff.rfl
  rw [hmem, hkeys]
  simp only [List.mem_cons, List.mem_singleton, List.not_mem_nil, or_false]
  omega

theorem seed_lookup_id (k : Int) (h₁ : 1 ≤ k) (h₂ : k ≤ 10) :
    ∃ st, seed.students.lookup k = some st ∧ st.Id = k := by
  have h : (seed.students.lookup k).map (fun s => s.Id) = some k := by
    interval_cases k <;> decide
  cases hl : seed.students.lookup k with
  | none => rw [hl] at h; cases h
  | some st =>
    rw [hl] at h
    exact ⟨st, rfl, Option.some.inj h⟩

theorem rangeFailure_excludes (l : List Char) (h : rangeFailure l = true) :
    syntaxFailure l = false := by
  unfold rangeFailure at h
  unfold syntaxFailure
  simp only [Bool.and_eq_true, Bool.or_eq_true, decide_eq_true_eq] at h
  obtain ⟨hne, h⟩ := h
  rcases h with h | ⟨hall, _⟩
  · have hle : ¬ decimalFrom 0 ((unsignedPart l).takeWhile isDigit) ≤ maxUint64 := by omega
    simp [hne, hle]
  · simp [hne, hall]

/-- The three outcomes of `Atoi`, told apart by the characters of the segment. -/
theorem atoi_result_cases (s : String) :
    (syntaxFailure s.data = true ∧ Atoi s = (0, some NumError.syntaxErr)) ∨
    (rangeFailure s.data = true ∧
      Atoi s = (boundOfSign s.data, some NumError.rangeErr)) ∨
    (syntaxFailure s.data = false ∧ rangeFailure s.data = false ∧ (Atoi s).2 = none) := by
  rw [Atoi_ref]
  unfold atoiRef
  cases hs : syntaxFailure s.data with
  | true => exact Or.inl ⟨rfl, by simp⟩
  | false =>
    cases hr : rangeFailure s.data with
    | true => exact Or.inr (Or.inl ⟨rfl, by simp⟩)
    | false => exact Or.inr (Or.inr ⟨rfl, rfl, by simp⟩)

theorem atoi_of_syntaxFailure (s : String) (h : syntaxFailure s.data = true) :
    Atoi s = (0, some NumError.syntaxErr) := by
  rcases atoi_result_cases s with ⟨_, hA⟩ | ⟨hr, _⟩ | ⟨hs, _, _⟩
  · exact hA
  · rw [rangeFailure_excludes _ hr] at h; cases h
  · rw [hs] at h; cases h

theorem atoi_of_rangeFailure (s : String) (h : rangeFailure s.data = true) :
    Atoi s = (boundOfSign s.data, some NumError.rangeErr) := by
  rcases atoi_result_cases s with ⟨hs, _⟩ | ⟨_, hA⟩ | ⟨_, hr, _⟩
  · rw [rangeFailure_excludes _ h] at hs; cases hs
  · exact hA
  · rw [hr] at h; cases h

theorem atoi_syntax_iff (s : String) :
    (Atoi s).2 = some NumError.syntaxErr ↔ syntaxFailure s.data = true := by
  constructor
  · intro h
    rcases atoi_result_cases s with ⟨hs, _⟩ | ⟨_, hA⟩ | ⟨_, _, hn⟩
    · exact hs
    · rw [hA] at h; cases h
    · rw [hn] at h; cases h
  · intro h
    rw [atoi_of_syntaxFailure s h]

theorem atoi_range_iff (s : String) :
    (Atoi s).2 = some NumError.rangeErr ↔ rangeFailure s.data = true := by
  constructor
  · intro h
    rcases atoi_result_cases s with ⟨_, hA⟩ | ⟨hr, _⟩ | ⟨_, _, hn⟩
    · rw [hA] at h; cases h
    · exact hr
    · rw [hn] at h; cases h
  · intro h
    rw [atoi_of_rangeFailure s h]

theorem atoi_failure_cases (s : String) (herr : (Atoi s).2 ≠ none) :
    syntaxFailure s.data = true ∨ rangeFailure s.data = true := by
  rcases atoi_result_cases s with ⟨hs, _⟩ | ⟨hr, _⟩ | ⟨_, _, hn⟩
  · exact Or.inl hs
  · exact Or.inr hr
  · exact absurd hn herr

/-! ## C1 -/

/-- C1: for every store state and every decoded payload, Create sets `lastId` to
`lastId + 1`, stores under that key the payload's Name, Age and Score with `Id` equal to the
new `lastId` (overwriting any `Id` of the payload), leaves every other record and
`lastQueriedId` unchanged, and responds 201 with exactly the stored record; on the seed
state the body Name "zzz", Age 9, Score 50 is answered with the record of Id 11. -/
theorem C1_create_contract :
    (∀ (g : Globals) (p : Student),
      (PostStudentHandler g newResponseWriter (some p)).1.lastId = g.lastId + 1 ∧
      (PostStudentHandler g newResponseWriter (some p)).1.students.lookup (g.lastId + 1)
        = some ⟨g.lastId + 1, p.Name, p.Age, p.Score⟩ ∧
      (∀ k, k ≠ g.lastId + 1 →
        (PostStudentHandler g newResponseWriter (some p)).1.students.lookup k
          = g.students.lookup k) ∧
      (PostStudentHandler g newResponseWriter (some p)).1.lastQueriedId = g.lastQueriedId ∧
      (PostStudentHandler g newResponseWriter (some p)).2.status = 201 ∧
      (PostStudentHandler g newResponseWriter (some p)).2.body
        = [Body.student ⟨g.lastId + 1, p.Name, p.Age, p.Score⟩]) ∧
    (PostStudentHandler seed newResponseWriter (some ⟨0, "zzz", 9, 50⟩)).2.status = 201 ∧
    (PostStudentHandler seed newResponseWriter (some ⟨0, "zzz", 9, 50⟩)).2.body
      = [Body.student ⟨11, "zzz", 9, 50⟩] := by
  refine ⟨fun g p => ⟨rfl, ?_, ?_, rfl, rfl, rfl⟩, by decide, by decide⟩
  · simp [PostStudentHandler]
  · intro k hk
    simp [PostStudentHandler, AList.lookup_insert_ne hk]

/-- C1, at a concrete input: a payload that carries its own Id on a store other than the
seed. -/
theorem C1_create_contract_witness :
    (PostStudentHandler ⟨∅, 41, 7⟩ newResponseWriter (some ⟨99, "q", 1, 2⟩)).1.students.lookup 3
      = (∅ : StudentMap).lookup 3 :=
  (C1_create_contract.1 ⟨∅, 41, 7⟩ ⟨99, "q", 1, 2⟩).2.2.1 3 (by decide)

/-! ## C2 -/

/-- C2: ID monotonicity.  After any finite sequence of requests from the seed state, the id
assigned by a successful Create is strictly greater than every key that was present in the
store at any earlier moment (also keys deleted since) and strictly greater than the id
assigned by every earlier Create; hence no id is used twice. -/
theorem C2_id_monotonicity :
    (∀ (ops₀ ops₁ : List Op) (p : Student),
      ∃ n, assignedId (PostStudentHandler (run seed (ops₀ ++ ops₁)) newResponseWriter (some p))
          = some n ∧
        ∀ k, k ∈ (run seed ops₀).students → k < n) ∧
    (∀ (ops₀ ops₁ : List Op) (q p : Student),
      ∃ m n, assignedId (PostStudentHandler (run seed ops₀) newResponseWriter (some q))
          = some m ∧
        assignedId (PostStudentHandler (run seed (ops₀ ++ Op.create (some q) :: ops₁))
          newResponseWriter (some p)) = some n ∧
        m < n) := by
  constructor
  · intro ops₀ ops₁ p
    refine ⟨(run seed (ops₀ ++ ops₁)).lastId + 1, rfl, ?_⟩
    intro k hk
    have h1 := (inv_run ops₀ seed inv_seed).2.1 k hk
    have h2 := lastId_le_run ops₁ (run seed ops₀)
    rw [run_append]
    omega
  · intro ops₀ ops₁ q p
    refine ⟨(run seed ops₀).lastId + 1,
      (run seed (ops₀ ++ Op.create (some q) :: ops₁)).lastId + 1, rfl, rfl, ?_⟩
    have h2 := lastId_le_run ops₁ (handle (run seed ops₀) (Op.create (some q))).1
    rw [run_append, run_cons]
    have h3 : (handle (run seed ops₀) (Op.create (some q))).1.lastId
        = (run seed ops₀).lastId + 1 := rfl
    omega

/-! ## C3 -/

/-- C3: for every store state, Next responds 404 if and only if `lastQueriedId` is 0 or no
record is stored under `lastQueriedId + 1`; otherwise it responds 200 with the record stored
under `lastQueriedId + 1`, sets `lastQueriedId` to `lastQueriedId + 1` and leaves the map
and `lastId` unchanged. -/
theorem C3_next_contract (g : Globals) :
    ((GetNextStudentHandler g newResponseWriter).2.status = 404 ↔
      (g.lastQueriedId = 0 ∨ g.students.lookup (g.lastQueriedId + 1) = none)) ∧
    (∀ st, g.lastQueriedId ≠ 0 → g.students.lookup (g.lastQueriedId + 1) = some st →
      (GetNextStudentHandler g newResponseWriter).2.status = 200 ∧
      (GetNextStudentHandler g newResponseWriter).2.body = [Body.student st] ∧
      (GetNextStudentHandler g newResponseWriter).1.lastQueriedId = g.lastQueriedId + 1 ∧
      (GetNextStudentHandler g newResponseWriter).1.students = g.students ∧
      (GetNextStudentHandler g newResponseWriter).1.lastId = g.lastId) := by
  constructor
  · by_cases h0 : g.lastQueriedId = 0
    · have hE : GetNextStudentHandler g newResponseWriter
          = (g, httpError newResponseWriter "No student has been queried yet"
              StatusNotFound) := by
        unfold GetNextStudentHandler
        rw [if_pos h0]
      rw [hE]
      exact ⟨fun _ => Or.inl h0, fun _ => rfl⟩
    · cases hl : g.students.lookup (g.lastQueriedId + 1) with
      | none =>
        have hE : GetNextStudentHandler g newResponseWriter
            = (g, newResponseWriter.WriteHeader StatusNotFound) := by
          unfold GetNextStudentHandler
          rw [if_neg h0]
          simp only [hl]
        rw [hE]
        exact ⟨fun _ => Or.inr rfl, fun _ => rfl⟩
      | some st =>
        have hE : GetNextStudentHandler g newResponseWriter
            = ({ g with lastQueriedId := g.lastQueriedId + 1 },
                ((newResponseWriter.WriteHeader StatusOK).HeaderSet "Content-Type"
                  "application/json").Encode (Body.student st)) := by
          unfold GetNextStudentHandler
          rw [if_neg h0]
          simp only [hl]
        rw [hE]
        constructor
        · intro h
          exact absurd (show (200 : Nat) = 404 from h) (by decide)
        · intro h
          rcases h with h | h
          · exact absurd h h0
          · exact absurd h (by simp)
  · intro st h0 hl
    have hE : GetNextStudentHandler g newResponseWriter
        = ({ g with lastQueriedId := g.lastQueriedId + 1 },
            ((newResponseWriter.WriteHeader StatusOK).HeaderSet "Content-Type"
              "application/json").Encode (Body.student st)) := by
      unfold GetNextStudentHandler
      rw [if_neg h0]
      simp only [hl]
    rw [hE]
    exact ⟨rfl, rfl, rfl, rfl, rfl⟩

/-- C3 at the seed store with the cursor on 3: Next answers 200 with record 4. -/
theorem C3_next_contract_witness :
    (GetNextStudentHandler { seed with lastQueriedId := 3 } newResponseWriter).2.status = 200 ∧
    (GetNextStudentHandler { seed with lastQueriedId := 3 } newResponseWriter).2.body
      = [Body.student ⟨4, "ccc", 11, 70⟩] ∧
    (GetNextStudentHandler { seed with lastQueriedId := 3 } newResponseWriter).1.lastQueriedId
      = 3 + 1 ∧
    (GetNextStudentHandler { seed with lastQueriedId := 3 } newResponseWriter).1.students
      = seed.students ∧
    (GetNextStudentHandler { seed with lastQueriedId := 3 } newResponseWriter).1.lastId
      = seed.lastId :=
  (C3_next_contract { seed with lastQueriedId := 3 }).2 ⟨4, "ccc", 11, 70⟩
    (by decide) (by decide)

/-! ## C4 -/

/-- C4: for every store state and every path segment that parses to an integer `id`: when
`id` is a key, Get responds 200 with exactly the record stored under `id`, sets
`lastQueriedId` to `id` and leaves the map and `lastId` unchanged; when `id` is not a key,
Get responds 404. -/
theorem C4_get_contract (g : Globals) (seg : String) (id : Int)
    (hparse : Atoi seg = (id, none)) :
    (∀ st, g.students.lookup id = some st →
      (GetStudentHandler g newResponseWriter seg).2.status = 200 ∧
      (GetStudentHandler g newResponseWriter seg).2.body = [Body.student st] ∧
      (GetStudentHandler g newResponseWriter seg).1.lastQueriedId = id ∧
      (GetStudentHandler g newResponseWriter seg).1.students = g.students ∧
      (GetStudentHandler g newResponseWriter seg).1.lastId = g.lastId) ∧
    (id ∉ g.students → (GetStudentHandler g newResponseWriter seg).2.status = 404) := by
  constructor
  · intro st hl
    have hE : GetStudentHandler g newResponseWriter seg
        = ({ g with lastQueriedId := id },
            ((newResponseWriter.WriteHeader StatusOK).HeaderSet "Content-Type"
              "application/json").Encode (Body.student st)) := by
      unfold GetStudentHandler
      simp only [hparse, hl]
    rw [hE]
    exact ⟨rfl, rfl, rfl, rfl, rfl⟩
  · intro hn
    have hl : g.students.lookup id = none := AList.lookup_eq_none.mpr hn
    have hE : GetStudentHandler g newResponseWriter seg
        = (g, httpError newResponseWriter "Student not found" StatusNotFound) := by
      unfold GetStudentHandler
      simp only [hparse, hl]
    rw [hE]
    rfl

/-- C4 at the seed store: the segment "3" is parsed to 3 and record 3 is returned. -/
theorem C4_get_contract_witness :
    (GetStudentHandler seed newResponseWriter "3").2.status = 200 ∧
    (GetStudentHandler seed newResponseWriter "3").2.body = [Body.student ⟨3, "ccc", 20, 85⟩] ∧
    (GetStudentHandler seed newResponseWriter "3").1.lastQueriedId = 3 ∧
    (GetStudentHandler seed newResponseWriter "3").1.students = seed.students ∧
    (GetStudentHandler seed newResponseWriter "3").1.lastId = seed.lastId :=
  (C4_get_contract seed "3" 3 (by decide)).1 ⟨3, "ccc", 20, 85⟩ (by decide)

/-! ## C5 -/

/-- C5: in every reachable state and for every order in which the map is iterated, List
responds 200 with one sequence that is a rearrangement of the stored records (every record
exactly once, as many elements as there are records) in strictly ascending order of `Id`,
and changes nothing; on an empty store the sequence is empty, still with status 200. -/
theorem C5_list_contract (g : Globals) (hg : Reachable g) (iter : List Student)
    (hiter : RangeOrder g.students iter) :
    (GetStudentListHandler g newResponseWriter iter).2.status = 200 ∧
    (GetStudentListHandler g newResponseWriter iter).1 = g ∧
    ∃ l : List Student,
      (GetStudentListHandler g newResponseWriter iter).2.body = [Body.students l] ∧
      l.Perm (values g.students) ∧
      l.length = g.students.entries.length ∧
      l.Nodup ∧
      (∀ st, st ∈ l ↔ ∃ k, g.students.lookup k = some st) ∧
      l.Pairwise (fun a b => a.Id < b.Id) ∧
      (g.students.entries = [] → l = []) := by
  obtain ⟨l, hperm, hasc, hE⟩ := list_eq g iter
  have hpv : l.Perm (values g.students) := hperm.trans hiter
  have hnd : (l.map (fun s => s.Id)).Nodup :=
    ((hpv.map _).nodup_iff).mpr (values_ids_nodup g (inv_of_reachable hg))
  rw [hE]
  refine ⟨(list_status iter l).1, rfl, l, (list_status iter l).2, hpv, ?_, ?_, ?_,
    strict_of_asc_nodup l hasc hnd, ?_⟩
  · rw [hpv.length_eq]
    simp [values]
  · exact List.Nodup.of_map _ hnd
  · intro st
    rw [hpv.mem_iff]
    exact mem_values_iff _ st
  · intro he
    have hv : values g.students = [] := by simp [values, he]
    rw [hv] at hpv
    exact List.Perm.eq_nil hpv

/-- C5 on the seed state, with the map iterated from key 10 down to key 1. -/
theorem C5_list_contract_witness :
    (GetStudentListHandler seed newResponseWriter (values seed.students)).2.status = 200 ∧
    (GetStudentListHandler seed newResponseWriter (values seed.students)).1 = seed ∧
    ∃ l : List Student,
      (GetStudentListHandler seed newResponseWriter (values seed.students)).2.body
        = [Body.students l] ∧
      l.Perm (values seed.students) ∧
      l.length = seed.students.entries.length ∧
      l.Nodup ∧
      (∀ st, st ∈ l ↔ ∃ k, seed.students.lookup k = some st) ∧
      l.Pairwise (fun a b => a.Id < b.Id) ∧
      (seed.students.entries = [] → l = []) :=
  C5_list_contract seed reachable_seed (values seed.students) (List.Perm.refl _)

/-! ## C6 -/

/-- C6: for every store state and every id that Delete reads from its path segment: when
the id is a key, Delete removes exactly that key, leaves every other key and record,
`lastId` and `lastQueriedId` unchanged, and responds 200 with an empty body; when it is not
a key, Delete responds 404 and changes nothing, as for Delete of 11 on the seed state. -/
theorem C6_delete_contract :
    (∀ (g : Globals) (seg : String) (id : Int), (Atoi seg).1 = id →
      (id ∈ g.students →
        (DeleteStudentHandler g newResponseWriter seg).1.students = g.students.erase id ∧
        (DeleteStudentHandler g newResponseWriter seg).1.students.lookup id = none ∧
        (∀ k, k ≠ id →
          (DeleteStudentHandler g newResponseWriter seg).1.students.lookup k
            = g.students.lookup k) ∧
        (DeleteStudentHandler g newResponseWriter seg).1.lastId = g.lastId ∧
        (DeleteStudentHandler g newResponseWriter seg).1.lastQueriedId = g.lastQueriedId ∧
        (DeleteStudentHandler g newResponseWriter seg).2.status = 200 ∧
        (DeleteStudentHandler g newResponseWriter seg).2.body = []) ∧
      (id ∉ g.students →
        (DeleteStudentHandler g newResponseWriter seg).2.status = 404 ∧
        (DeleteStudentHandler g newResponseWriter seg).1 = g)) ∧
    (DeleteStudentHandler seed newResponseWriter "11").2.status = 404 := by
  refine ⟨?_, by decide⟩
  intro g seg id hid
  subst hid
  constructor
  · intro hmem
    obtain ⟨st, hst⟩ := Option.isSome_iff_exists.mp (AList.lookup_isSome.mpr hmem)
    have hE : DeleteStudentHandler g newResponseWriter seg
        = ({ g with students := g.students.erase (Atoi seg).1 },
            newResponseWriter.WriteHeader StatusOK) := by
      unfold DeleteStudentHandler
      simp only [hst]
    rw [hE]
    refine ⟨rfl, AList.lookup_erase _ g.students, ?_, rfl, rfl, rfl, rfl⟩
    intro k hk
    exact AList.lookup_erase_ne hk
  · intro hn
    have hl : g.students.lookup (Atoi seg).1 = none := AList.lookup_eq_none.mpr hn
    have hE : DeleteStudentHandler g newResponseWriter seg
        = (g, newResponseWriter.WriteHeader StatusNotFound) := by
      unfold DeleteStudentHandler
      simp only [hl]
    rw [hE]
    exact ⟨rfl, rfl⟩

/-- C6 at the seed store: Delete of "4" removes key 4 and keeps record 5. -/
theorem C6_delete_contract_witness :
    (DeleteStudentHandler seed newResponseWriter "4").1.students.lookup 4 = none ∧
    (DeleteStudentHandler seed newResponseWriter "4").1.students.lookup 5
      = seed.students.lookup 5 ∧
    (DeleteStudentHandler seed newResponseWriter "4").2.status = 200 ∧
    (DeleteStudentHandler seed newResponseWriter "4").2.body = [] :=
  have h := (C6_delete_contract.1 seed "4" 4 (by decide)).1 (by decide)
  ⟨h.2.1, h.2.2.1 5 (by decide), h.2.2.2.2.2.1, h.2.2.2.2.2.2⟩

/-! ## C7 -/

/-- C7: Get/Next coupling.  In every reachable state, after a Get of `k` that succeeded, an
immediately following Next succeeds if and only if a record is stored under `k + 1`, and
then it returns exactly that record and `lastQueriedId` becomes `k + 1`. -/
theorem C7_get_next_coupling (g : Globals) (hg : Reachable g) (seg : String)
    (hget : (GetStudentHandler g newResponseWriter seg).2.status = 200) :
    ((GetNextStudentHandler (GetStudentHandler g newResponseWriter seg).1
        newResponseWriter).2.status = 200 ↔ ((Atoi seg).1 + 1) ∈ g.students) ∧
    (((Atoi seg).1 + 1) ∉ g.students →
      (GetNextStudentHandler (GetStudentHandler g newResponseWriter seg).1
        newResponseWriter).2.status = 404) ∧
    (∀ st, g.students.lookup ((Atoi seg).1 + 1) = some st →
      (GetNextStudentHandler (GetStudentHandler g newResponseWriter seg).1
        newResponseWriter).2.body = [Body.student st] ∧
      (GetNextStudentHandler (GetStudentHandler g newResponseWriter seg).1
        newResponseWriter).1.lastQueriedId = (Atoi seg).1 + 1) := by
  obtain ⟨st0, hp, hl0⟩ := get_ok_inv g seg hget
  have hk := (inv_of_reachable hg).2.1 _ (mem_of_lookup hl0)
  rw [get_of_some g newResponseWriter seg _ hp st0 hl0]
  generalize (Atoi seg).1 = k at hk hl0
  have h0 : ({ g with lastQueriedId := k } : Globals).lastQueriedId ≠ 0 := by
    show k ≠ 0
    omega
  refine ⟨?_, ?_, ?_⟩
  · cases hl : g.students.lookup (k + 1) with
    | none =>
      rw [next_of_none _ _ h0 hl]
      constructor
      · intro h
        exact absurd (show (404 : Nat) = 200 from h) (by decide)
      · intro h
        exact absurd h (AList.lookup_eq_none.mp hl)
    | some st =>
      rw [next_of_some _ _ h0 st hl]
      exact ⟨fun _ => mem_of_lookup hl, fun _ => rfl⟩
  · intro hn
    rw [next_of_none _ _ h0 (AList.lookup_eq_none.mpr hn)]
    rfl
  · intro st hl
    rw [next_of_some _ _ h0 st hl]
    exact ⟨rfl, rfl⟩

/-- C7 on the seed state: after Get of "3", Next returns record 4. -/
theorem C7_get_next_coupling_witness :
    (GetNextStudentHandler (GetStudentHandler seed newResponseWriter "3").1
        newResponseWriter).2.body = [Body.student ⟨4, "ccc", 11, 70⟩] ∧
    (GetNextStudentHandler (GetStudentHandler seed newResponseWriter "3").1
        newResponseWriter).1.lastQueriedId = (Atoi "3").1 + 1 :=
  (C7_get_next_coupling seed reachable_seed "3" (by decide)).2.2 ⟨4, "ccc", 11, 70⟩
    (by decide)

/-! ## C8 -/

/-- C8: the `Content-Type: application/json` header of the JSON responses.  The handlers
call `w.Header().Set` after `w.WriteHeader`, so the headers sent with a successful Get,
Create or Next, and with a List of a store that is not empty, carry no `Content-Type` set
by the handler; the header reaches the header map only after the status line was written.
Only the List of an empty store, which makes no `WriteHeader` call, sends it. -/
theorem C8_content_type_set_after_status_line :
    ((GetStudentHandler seed newResponseWriter "3").2.status = 200 ∧
      (GetStudentHandler seed newResponseWriter "3").2.sentHeader "Content-Type" = none ∧
      (GetStudentHandler seed newResponseWriter "3").2.header
        = [("Content-Type", "application/json")]) ∧
    (∀ (g : Globals) (seg : String),
      (GetStudentHandler g newResponseWriter seg).2.status = 200 →
      (GetStudentHandler g newResponseWriter seg).2.sentHeader "Content-Type" = none) ∧
    (∀ (g : Globals) (p : Student),
      (PostStudentHandler g newResponseWriter (some p)).2.status = 201 ∧
      (PostStudentHandler g newResponseWriter (some p)).2.sentHeader "Content-Type" = none) ∧
    (∀ g : Globals,
      (GetNextStudentHandler g newResponseWriter).2.status = 200 →
      (GetNextStudentHandler g newResponseWriter).2.sentHeader "Content-Type" = none) ∧
    (∀ (g : Globals) (iter : List Student), iter ≠ [] →
      (GetStudentListHandler g newResponseWriter iter).2.status = 200 ∧
      (GetStudentListHandler g newResponseWriter iter).2.sentHeader "Content-Type" = none) ∧
    (∀ g : Globals,
      (GetStudentListHandler g newResponseWriter []).2.sentHeader "Content-Type"
        = some "application/json") := by
  refine ⟨by decide, ?_, fun g p => ⟨rfl, rfl⟩, ?_, ?_, fun g => rfl⟩
  · intro g seg h
    obtain ⟨st, hp, hl⟩ := get_ok_inv g seg h
    rw [get_of_some g _ seg _ hp st hl]
    rfl
  · intro g h
    by_cases h0 : g.lastQueriedId = 0
    · rw [next_of_zero g _ h0] at h
      exact absurd (show (404 : Nat) = 200 from h) (by decide)
    · cases hl : g.students.lookup (g.lastQueriedId + 1) with
      | none =>
        rw [next_of_none g _ h0 hl] at h
        exact absurd (show (404 : Nat) = 200 from h) (by decide)
      | some st =>
        rw [next_of_some g _ h0 st hl]
        rfl
  · intro g iter hne
    obtain ⟨l, _, _, hE⟩ := list_eq g iter
    rw [hE, if_neg hne]
    exact ⟨rfl, rfl⟩

/-- C8 on the seed state: the List of the ten seed records is sent without the header. -/
theorem C8_content_type_set_after_status_line_witness :
    (GetStudentListHandler seed newResponseWriter (values seed.students)).2.status = 200 ∧
    (GetStudentListHandler seed newResponseWriter (values seed.students)).2.sentHeader
      "Content-Type" = none :=
  C8_content_type_set_after_status_line.2.2.2.2.1 seed (values seed.students) (by decide)

/-! ## C9 -/

/-- C9 as stated fails: the segment "-5" is not a valid non-negative integer, yet `Atoi`
parses it and Get answers 404, not 400. -/
theorem C9_signed_segment_is_parsed :
    validNonNegInt "-5" = false ∧
    (GetStudentHandler seed newResponseWriter "-5").2.status = 404 ∧
    (GetStudentHandler seed newResponseWriter "-5").2.status ≠ 400 := by
  decide

/-- C9, amended: for every store state, Get responds 400 exactly on the path segments that
are not an integer in decimal notation that an `int` can hold (an optional sign followed by
one or more digits): non-numeric text, the empty segment, a bare sign, a number out of the
range of `int`.  A signed number is parsed, and answered 404 when no record has that id.  On
the segments that the route `[0-9]+` admits, Get responds 400 exactly when the number
exceeds the largest `int`.  A Get answered with 400 changes nothing. -/
theorem C9_get_invalid_input (g : Globals) (seg : String) :
    ((GetStudentHandler g newResponseWriter seg).2.status = 400 ↔ intOfString seg = none) ∧
    (intOfString seg = none → (GetStudentHandler g newResponseWriter seg).1 = g) ∧
    (∀ v, intOfString seg = some v → v ∉ g.students →
      (GetStudentHandler g newResponseWriter seg).2.status = 404) ∧
    (matchesIdPattern seg = true →
      ((GetStudentHandler g newResponseWriter seg).2.status = 400 ↔
        maxInt < (decimalFrom 0 seg.data : Int))) := by
  have hiff := (get_status_400_iff g seg).trans (atoi_error_iff seg)
  refine ⟨hiff, ?_, ?_, ?_⟩
  · intro hnone
    have herr := Atoi_none seg hnone
    rcases hA : Atoi seg with ⟨n, e⟩
    cases e with
    | none => rw [hA] at herr; exact absurd rfl herr
    | some e => rw [get_of_error g _ seg n e hA]
  · intro v hv hn
    rw [get_of_none g _ seg v (Atoi_some seg v hv) (AList.lookup_eq_none.mpr hn)]
    rfl
  · intro hm
    rw [hiff, intOfString_digits seg hm]
    constructor
    · intro h
      by_contra hle
      rw [if_pos (not_lt.mp hle)] at h
      cases h
    · intro h
      rw [if_neg (not_le.mpr h)]

/-- C9, amended, on the seed state: text is answered 400, an oversized digit string is
answered 400, and the signed "-5" is answered 404. -/
theorem C9_get_invalid_input_witness :
    (GetStudentHandler seed newResponseWriter "abc").2.status = 400 ∧
    (GetStudentHandler seed newResponseWriter "9223372036854775808").2.status = 400 ∧
    (GetStudentHandler seed newResponseWriter "-5").2.status = 404 :=
  ⟨(C9_get_invalid_input seed "abc").1.mpr (by decide),
   ((C9_get_invalid_input seed "9223372036854775808").2.2.2 (by decide)).mpr (by decide),
   (C9_get_invalid_input seed "-5").2.2.1 (-5) (by decide) (by decide)⟩

/-! ## C10 -/

/-- C10 as stated fails: on a digit string too large for an `int`, a segment that does not
parse, `Atoi` returns the largest `int` next to its error, so the id that Delete looks up is
9223372036854775807 and not 0. -/
theorem C10_unparsed_id_is_not_always_zero :
    ¬ (∀ (g : Globals) (seg : String), Reachable g → (Atoi seg).2 ≠ none →
        (Atoi seg).1 = 0 ∧
        (DeleteStudentHandler g newResponseWriter seg).2.status = 404 ∧
        (DeleteStudentHandler g newResponseWriter seg).1 = g) := by
  intro h
  have h1 := (h seed "99999999999999999999" reachable_seed (by decide)).1
  revert h1
  decide

/-- C10, amended: in every reachable state and for every path segment that `Atoi` rejects,
Delete uses the value that `Atoi` returns next to its error.  `Atoi` reports a syntax error,
and the id is 0, exactly when nothing is left after the optional sign or a character other
than a decimal digit follows leading digits that do not exceed the largest `uint64`.  It
reports a range error, and the id is the bound of `int` on the side of the sign (the
smallest `int` after a leading minus sign, the largest `int` otherwise), exactly when the
leading digits exceed the largest `uint64`, whatever follows them, or the segment has digits
only and its number does not fit an `int`.  A rejected segment that the route `[0-9]+`
admits is a range failure with the largest `int` as id.  Delete never answers 400; it
answers 404 and changes nothing whenever no record is stored under that id, which is always
so when the id is not the largest `int`. -/
theorem C10_delete_malformed_id (g : Globals) (hg : Reachable g) (seg : String)
    (herr : (Atoi seg).2 ≠ none) :
    ((Atoi seg).2 = some NumError.syntaxErr ↔ syntaxFailure seg.data = true) ∧
    ((Atoi seg).2 = some NumError.rangeErr ↔ rangeFailure seg.data = true) ∧
    (syntaxFailure seg.data = true ∨ rangeFailure seg.data = true) ∧
    (syntaxFailure seg.data = true → (Atoi seg).1 = 0) ∧
    (rangeFailure seg.data = true → minusSign seg.data = true → (Atoi seg).1 = minInt) ∧
    (rangeFailure seg.data = true → minusSign seg.data = false → (Atoi seg).1 = maxInt) ∧
    (matchesIdPattern seg = true →
      rangeFailure seg.data = true ∧ (Atoi seg).1 = maxInt) ∧
    (DeleteStudentHandler g newResponseWriter seg).2.status ≠ 400 ∧
    ((Atoi seg).1 ∉ g.students →
      (DeleteStudentHandler g newResponseWriter seg).2.status = 404 ∧
      (DeleteStudentHandler g newResponseWriter seg).1 = g) ∧
    ((Atoi seg).1 ≠ maxInt →
      (DeleteStudentHandler g newResponseWriter seg).2.status = 404 ∧
      (DeleteStudentHandler g newResponseWriter seg).1 = g) := by
  have habsent : (Atoi seg).1 ∉ g.students →
      (DeleteStudentHandler g newResponseWriter seg).2.status = 404 ∧
      (DeleteStudentHandler g newResponseWriter seg).1 = g := by
    intro hn
    rw [delete_of_absent g _ seg hn]
    exact ⟨rfl, rfl⟩
  have hstatus : (DeleteStudentHandler g newResponseWriter seg).2.status ≠ 400 := by
    rcases delete_status g seg with h | h <;> rw [h] <;> decide
  have hinv := inv_of_reachable hg
  have hsmall : ∀ n : Int, n ≤ 0 → n ∉ g.students := by
    intro n hn hmem
    have := hinv.2.1 n hmem
    omega
  have hzero : syntaxFailure seg.data = true → (Atoi seg).1 = 0 := by
    intro h
    rw [atoi_of_syntaxFailure seg h]
  have hmin : rangeFailure seg.data = true → minusSign seg.data = true →
      (Atoi seg).1 = minInt := by
    intro h hm
    rw [atoi_of_rangeFailure seg h]
    show boundOfSign seg.data = minInt
    unfold boundOfSign
    rw [if_pos hm]
  have hmax : rangeFailure seg.data = true → minusSign seg.data = false →
      (Atoi seg).1 = maxInt := by
    intro h hm
    rw [atoi_of_rangeFailure seg h]
    show boundOfSign seg.data = maxInt
    unfold boundOfSign
    rw [hm]
    rfl
  have hroute : matchesIdPattern seg = true →
      rangeFailure seg.data = true ∧ (Atoi seg).1 = maxInt := by
    intro hm
    have hA := atoi_digits_error seg hm herr
    exact ⟨(atoi_range_iff seg).mp (by rw [hA]), by rw [hA]⟩
  refine ⟨atoi_syntax_iff seg, atoi_range_iff seg, atoi_failure_cases seg herr, hzero,
    hmin, hmax, hroute, hstatus, habsent, ?_⟩
  intro hne
  apply habsent
  apply hsmall
  rcases atoi_failure_cases seg herr with hs | hr
  · rw [hzero hs]
  · cases hm : minusSign seg.data with
    | true => rw [hmin hr hm]; decide
    | false => exact absurd (hmax hr hm) hne

/-- C10, amended, on the seed state: "abc" is read as id 0; "99999999999999999999x", not a
number, is read as the largest `int` because its leading digits overflow first;
"-99999999999999999999" is read as the smallest `int`; the Deletes answer 404 and change
nothing. -/
theorem C10_delete_malformed_id_witness :
    ((Atoi "abc").1 = 0 ∧
      (DeleteStudentHandler seed newResponseWriter "abc").2.status = 404 ∧
      (DeleteStudentHandler seed newResponseWriter "abc").1 = seed) ∧
    (Atoi "99999999999999999999x").1 = maxInt ∧
    ((Atoi "-99999999999999999999").1 = minInt ∧
      (DeleteStudentHandler seed newResponseWriter "-99999999999999999999").2.status = 404 ∧
      (DeleteStudentHandler seed newResponseWriter "-99999999999999999999").1 = seed) ∧
    ((Atoi "99999999999999999999").1 = maxInt ∧
      (DeleteStudentHandler seed newResponseWriter "99999999999999999999").2.status = 404 ∧
      (DeleteStudentHandler seed newResponseWriter "99999999999999999999").1 = seed) :=
  ⟨⟨(C10_delete_malformed_id seed reachable_seed "abc" (by decide)).2.2.2.1 (by decide),
    (C10_delete_malformed_id seed reachable_seed "abc" (by decide)).2.2.2.2.2.2.2.2.2
      (by decide)⟩,
   (C10_delete_malformed_id seed reachable_seed "99999999999999999999x"
      (by decide)).2.2.2.2.2.1 (by decide) (by decide),
   ⟨(C10_delete_malformed_id seed reachable_seed "-99999999999999999999"
      (by decide)).2.2.2.2.1 (by decide) (by decide),
    (C10_delete_malformed_id seed reachable_seed "-99999999999999999999"
      (by decide)).2.2.2.2.2.2.2.2.2 (by decide)⟩,
   ⟨((C10_delete_malformed_id seed reachable_seed "99999999999999999999"
      (by decide)).2.2.2.2.2.2.1 (by decide)).2,
    (C10_delete_malformed_id seed reachable_seed "99999999999999999999"
      (by decide)).2.2.2.2.2.2.2.2.1 (by decide)⟩⟩

/-! ## C11 -/

/-- C11: Delete removes, Get confirms.  In every reachable state, after a Delete of `k` that
succeeded, a Get of `k` answers 404, immediately and after any further finite sequence of
List, Get, Create, Delete and Next requests (the key `k` never comes back, ids not being
reused), and such a Get changes nothing, `lastQueriedId` included. -/
theorem C11_delete_then_get (g : Globals) (hg : Reachable g) (seg : String)
    (hdel : (DeleteStudentHandler g newResponseWriter seg).2.status = 200)
    (ops : List Op) (seg2 : String) (hparse : Atoi seg2 = ((Atoi seg).1, none)) :
    (Atoi seg).1 ∉ (run (DeleteStudentHandler g newResponseWriter seg).1 ops).students ∧
    (GetStudentHandler (run (DeleteStudentHandler g newResponseWriter seg).1 ops)
      newResponseWriter seg2).2.status = 404 ∧
    (GetStudentHandler (run (DeleteStudentHandler g newResponseWriter seg).1 ops)
      newResponseWriter seg2).1
      = run (DeleteStudentHandler g newResponseWriter seg).1 ops ∧
    (GetStudentHandler (run (DeleteStudentHandler g newResponseWriter seg).1 ops)
      newResponseWriter seg2).1.lastQueriedId
      = (run (DeleteStudentHandler g newResponseWriter seg).1 ops).lastQueriedId := by
  have habs : (Atoi seg).1 ∉
      (run (DeleteStudentHandler g newResponseWriter seg).1 ops).students := by
    rcases delete_cases g newResponseWriter seg with ⟨_, hE⟩ | ⟨st, hl, hE⟩
    · rw [hE] at hdel
      exact absurd (show (404 : Nat) = 200 from hdel) (by decide)
    · have hk := (inv_of_reachable hg).2.1 _ (mem_of_lookup hl)
      rw [hE]
      apply absent_run
      · exact AList.lookup_eq_none.mp (AList.lookup_erase _ _)
      · exact hk.2
  have hE := get_of_none (run (DeleteStudentHandler g newResponseWriter seg).1 ops)
    newResponseWriter seg2 _ hparse (AList.lookup_eq_none.mpr habs)
  rw [hE]
  exact ⟨habs, rfl, rfl, rfl⟩

/-- C11 on the seed state: record 4 is deleted, a record is created and the cursor is
moved; Get of 4 still answers 404. -/
theorem C11_delete_then_get_witness :
    (GetStudentHandler
      (run (DeleteStudentHandler seed newResponseWriter "4").1
        [Op.create (some ⟨4, "again", 1, 1⟩), Op.get "3", Op.next])
      newResponseWriter "4").2.status = 404 :=
  (C11_delete_then_get seed reachable_seed "4" (by decide)
    [Op.create (some ⟨4, "again", 1, 1⟩), Op.get "3", Op.next] "4" (by decide)).2.1

/-! ## C12 -/

/-- C12: cursor survives irrelevant mutation.  For every store state and decoded payload,
Create leaves `lastQueriedId` unchanged, and whenever `lastQueriedId + 1` differs from the
id that Create assigns, Next gives the same response (status and record) and the same new
`lastQueriedId` after the Create as before it; on the seed state with the cursor on 5, Next
returns record 6 before and after the creation of record 11. -/
theorem C12_cursor_survives_create :
    (∀ (g : Globals) (p : Student),
      (PostStudentHandler g newResponseWriter (some p)).1.lastQueriedId = g.lastQueriedId) ∧
    (∀ (g : Globals) (p : Student), g.lastQueriedId + 1 ≠ g.lastId + 1 →
      (GetNextStudentHandler (PostStudentHandler g newResponseWriter (some p)).1
          newResponseWriter).2
        = (GetNextStudentHandler g newResponseWriter).2 ∧
      (GetNextStudentHandler (PostStudentHandler g newResponseWriter (some p)).1
          newResponseWriter).1.lastQueriedId
        = (GetNextStudentHandler g newResponseWriter).1.lastQueriedId) ∧
    ((GetNextStudentHandler { seed with lastQueriedId := 5 } newResponseWriter).2.body
        = [Body.student ⟨6, "eee", 33, 82⟩] ∧
      (PostStudentHandler { seed with lastQueriedId := 5 } newResponseWriter
          (some ⟨0, "zzz", 9, 50⟩)).2.body = [Body.student ⟨11, "zzz", 9, 50⟩] ∧
      (GetNextStudentHandler
          (PostStudentHandler { seed with lastQueriedId := 5 } newResponseWriter
            (some ⟨0, "zzz", 9, 50⟩)).1 newResponseWriter).2.body
        = [Body.student ⟨6, "eee", 33, 82⟩]) := by
  refine ⟨fun g p => rfl, ?_, by decide⟩
  intro g p hne
  have hlook : (PostStudentHandler g newResponseWriter (some p)).1.students.lookup
      (g.lastQueriedId + 1) = g.students.lookup (g.lastQueriedId + 1) := by
    rw [post_fst_some]
    exact AList.lookup_insert_ne hne
  have hq : (PostStudentHandler g newResponseWriter (some p)).1.lastQueriedId
      = g.lastQueriedId := rfl
  rcases next_cases g newResponseWriter with ⟨h0, hE⟩ | ⟨h0, hl, hE⟩ | ⟨st, h0, hl, hE⟩
  · rw [hE, next_of_zero _ _ (by rw [hq]; exact h0)]
    exact ⟨rfl, rfl⟩
  · rw [hE, next_of_none _ _ (by rw [hq]; exact h0) (by rw [hq, hlook]; exact hl)]
    exact ⟨rfl, rfl⟩
  · rw [hE, next_of_some _ _ (by rw [hq]; exact h0) st (by rw [hq, hlook]; exact hl)]
    exact ⟨rfl, rfl⟩

/-- C12 on the seed state with the cursor on 5. -/
theorem C12_cursor_survives_create_witness :
    (GetNextStudentHandler
        (PostStudentHandler { seed with lastQueriedId := 5 } newResponseWriter
          (some ⟨0, "zzz", 9, 50⟩)).1 newResponseWriter).2
      = (GetNextStudentHandler { seed with lastQueriedId := 5 } newResponseWriter).2 ∧
    (GetNextStudentHandler
        (PostStudentHandler { seed with lastQueriedId := 5 } newResponseWriter
          (some ⟨0, "zzz", 9, 50⟩)).1 newResponseWriter).1.lastQueriedId
      = (GetNextStudentHandler { seed with lastQueriedId := 5 }
          newResponseWriter).1.lastQueriedId :=
  C12_cursor_survives_create.2.1 { seed with lastQueriedId := 5 } ⟨0, "zzz", 9, 50⟩
    (by decide)

/-! ## C13 -/

/-- C13: in every state reachable from the seed state, `lastId` is at least 10 and every
key `k` of the store satisfies `1 ≤ k ≤ lastId`; no request decreases `lastId`: List, Get,
Delete, Next and a Create that fails to decode leave it unchanged, and a successful Create
adds exactly 1. -/
theorem C13_lastId_bounds :
    (∀ g : Globals, Reachable g →
      10 ≤ g.lastId ∧ ∀ k, k ∈ g.students → 1 ≤ k ∧ k ≤ g.lastId) ∧
    (∀ (g : Globals) (op : Op), g.lastId ≤ (handle g op).1.lastId) ∧
    (∀ (g : Globals) (iter : List Student),
      (GetStudentListHandler g newResponseWriter iter).1.lastId = g.lastId) ∧
    (∀ (g : Globals) (seg : String),
      (GetStudentHandler g newResponseWriter seg).1.lastId = g.lastId) ∧
    (∀ (g : Globals) (seg : String),
      (DeleteStudentHandler g newResponseWriter seg).1.lastId = g.lastId) ∧
    (∀ g : Globals, (GetNextStudentHandler g newResponseWriter).1.lastId = g.lastId) ∧
    (∀ g : Globals, (PostStudentHandler g newResponseWriter none).1.lastId = g.lastId) ∧
    (∀ (g : Globals) (p : Student),
      (PostStudentHandler g newResponseWriter (some p)).1.lastId = g.lastId + 1) := by
  refine ⟨?_, lastId_le_handle, fun g iter => rfl, ?_, ?_, ?_, fun g => rfl,
    fun g p => rfl⟩
  · intro g hg
    exact ⟨(inv_of_reachable hg).1, (inv_of_reachable hg).2.1⟩
  · intro g seg
    rcases get_fst_cases g newResponseWriter seg with hE | ⟨n, st, _, hE⟩ <;> rw [hE]
  · intro g seg
    rcases delete_fst_cases g newResponseWriter seg with hE | ⟨n, hE⟩ <;> rw [hE]
  · intro g
    rcases next_fst_cases g newResponseWriter with hE | ⟨st, _, hE⟩ <;> rw [hE]

/-- C13 in the state reached from the seed by a Create, a Delete and a Get. -/
theorem C13_lastId_bounds_witness :
    10 ≤ (run seed [Op.create (some ⟨0, "zzz", 9, 50⟩), Op.delete "2", Op.get "11"]).lastId ∧
    ∀ k, k ∈ (run seed [Op.create (some ⟨0, "zzz", 9, 50⟩), Op.delete "2",
        Op.get "11"]).students →
      1 ≤ k ∧
      k ≤ (run seed [Op.create (some ⟨0, "zzz", 9, 50⟩), Op.delete "2", Op.get "11"]).lastId :=
  C13_lastId_bounds.1 _ ⟨[Op.create (some ⟨0, "zzz", 9, 50⟩), Op.delete "2", Op.get "11"], rfl⟩

/-! ## C14 -/

/-- C14: in every state reachable from the seed state, every key `k` of the store maps to
a record whose `Id` is `k`; hence the `Id` fields of the stored records are pairwise
distinct. -/
theorem C14_key_is_id (g : Globals) (hg : Reachable g) :
    (∀ k st, g.students.lookup k = some st → st.Id = k) ∧
    ((values g.students).map (fun s => s.Id)).Nodup ∧
    (∀ k₁ k₂ s₁ s₂, g.students.lookup k₁ = some s₁ → g.students.lookup k₂ = some s₂ →
      k₁ ≠ k₂ → s₁.Id ≠ s₂.Id) := by
  have hinv := inv_of_reachable hg
  refine ⟨hinv.2.2.1, values_ids_nodup g hinv, ?_⟩
  intro k₁ k₂ s₁ s₂ h₁ h₂ hne
  rw [hinv.2.2.1 k₁ s₁ h₁, hinv.2.2.1 k₂ s₂ h₂]
  exact hne

/-- C14 in the state reached from the seed by a Create whose payload carries the Id 3. -/
theorem C14_key_is_id_witness :
    (∀ k st, (run seed [Op.create (some ⟨3, "dup", 1, 1⟩)]).students.lookup k = some st →
      st.Id = k) ∧
    ((values (run seed [Op.create (some ⟨3, "dup", 1, 1⟩)]).students).map
      (fun s => s.Id)).Nodup ∧
    (∀ k₁ k₂ s₁ s₂,
      (run seed [Op.create (some ⟨3, "dup", 1, 1⟩)]).students.lookup k₁ = some s₁ →
      (run seed [Op.create (some ⟨3, "dup", 1, 1⟩)]).students.lookup k₂ = some s₂ →
      k₁ ≠ k₂ → s₁.Id ≠ s₂.Id) :=
  C14_key_is_id _ ⟨[Op.create (some ⟨3, "dup", 1, 1⟩)], rfl⟩

/-! ## C15 -/

/-- C15: in every state reached from the seed state by a finite sequence of requests,
`lastQueriedId` is 0, or it lies between 1 and `lastId` and is the `Id` of the record that
an earlier Get or Next of that sequence returned with status 200.  The record need not be
stored any more: after Get of 3 and Delete of 3 the cursor is 3 and key 3 is gone. -/
theorem C15_cursor_provenance :
    (∀ ops : List Op,
      (run seed ops).lastQueriedId = 0 ∨
      (1 ≤ (run seed ops).lastQueriedId ∧
        (run seed ops).lastQueriedId ≤ (run seed ops).lastId ∧
        ∃ pre op post st, ops = pre ++ op :: post ∧ isGetOrNext op = true ∧
          (handle (run seed pre) op).2.status = 200 ∧
          bodyStudent (handle (run seed pre) op).2 = some st ∧
          st.Id = (run seed ops).lastQueriedId)) ∧
    ((run seed [Op.get "3", Op.delete "3"]).lastQueriedId = 3 ∧
      (run seed [Op.get "3", Op.delete "3"]).students.lookup 3 = none) := by
  refine ⟨?_, by decide⟩
  intro ops
  induction ops using List.reverseRecOn with
  | nil => exact Or.inl rfl
  | append_singleton l a ih =>
    have hmono := lastId_le_handle (run seed l) a
    have hinv := inv_run l seed inv_seed
    rw [run_snoc]
    rcases handle_cursor_cases (run seed l) a with hsame | ⟨hq, st, hst, hbody, hl⟩
    · rw [hsame]
      rcases ih with h0 | ⟨h1, h2, pre, op, post, st, hops, hq, hst, hbody, hid⟩
      · exact Or.inl h0
      · refine Or.inr ⟨h1, le_trans h2 hmono, pre, op, post ++ [a], st, ?_, hq, hst,
          hbody, hid⟩
        rw [hops]
        simp
    · have hk := hinv.2.1 _ (mem_of_lookup hl)
      exact Or.inr ⟨hk.1, le_trans hk.2 hmono, l, a, [], st, rfl, hq, hst, hbody,
        hinv.2.2.1 _ _ hl⟩

/-! ## C16 -/

/-- C16: failure atomicity.  For every store state, a request answered with an error
status (Get with 400 or 404, Create with 400 on a body that does not decode, Delete with
404, Next with 404) leaves the map, `lastId` and `lastQueriedId` exactly as they were. -/
theorem C16_failure_atomicity :
    (∀ (g : Globals) (seg : String),
      (GetStudentHandler g newResponseWriter seg).2.status = 400 ∨
        (GetStudentHandler g newResponseWriter seg).2.status = 404 →
      (GetStudentHandler g newResponseWriter seg).1 = g) ∧
    (∀ g : Globals,
      (PostStudentHandler g newResponseWriter none).2.status = 400 ∧
      (PostStudentHandler g newResponseWriter none).1 = g) ∧
    (∀ (g : Globals) (seg : String),
      (DeleteStudentHandler g newResponseWriter seg).2.status = 404 →
      (DeleteStudentHandler g newResponseWriter seg).1 = g) ∧
    (∀ g : Globals,
      (GetNextStudentHandler g newResponseWriter).2.status = 404 →
      (GetNextStudentHandler g newResponseWriter).1 = g) ∧
    (∀ (g : Globals) (op : Op),
      (handle g op).2.status = 400 ∨ (handle g op).2.status = 404 →
      (handle g op).1 = g) := by
  have hget : ∀ (g : Globals) (seg : String),
      (GetStudentHandler g newResponseWriter seg).2.status = 400 ∨
        (GetStudentHandler g newResponseWriter seg).2.status = 404 →
      (GetStudentHandler g newResponseWriter seg).1 = g := by
    intro g seg h
    rcases get_cases g newResponseWriter seg with ⟨e, _, hE⟩ | ⟨_, _, hE⟩ | ⟨st, _, _, hE⟩
    · rw [hE]
    · rw [hE]
    · rw [hE] at h
      rcases h with h | h
      · exact absurd (show (200 : Nat) = 400 from h) (by decide)
      · exact absurd (show (200 : Nat) = 404 from h) (by decide)
  have hdel : ∀ (g : Globals) (seg : String),
      (DeleteStudentHandler g newResponseWriter seg).2.status = 404 →
      (DeleteStudentHandler g newResponseWriter seg).1 = g := by
    intro g seg h
    rcases delete_cases g newResponseWriter seg with ⟨_, hE⟩ | ⟨st, _, hE⟩
    · rw [hE]
    · rw [hE] at h
      exact absurd (show (200 : Nat) = 404 from h) (by decide)
  have hnext : ∀ g : Globals,
      (GetNextStudentHandler g newResponseWriter).2.status = 404 →
      (GetNextStudentHandler g newResponseWriter).1 = g := by
    intro g h
    rcases next_cases g newResponseWriter with ⟨_, hE⟩ | ⟨_, _, hE⟩ | ⟨st, _, _, hE⟩
    · rw [hE]
    · rw [hE]
    · rw [hE] at h
      exact absurd (show (200 : Nat) = 404 from h) (by decide)
  refine ⟨hget, fun g => ⟨rfl, rfl⟩, hdel, hnext, ?_⟩
  intro g op h
  cases op with
  | list iter => rfl
  | get seg => exact hget g seg h
  | create decoded =>
    cases decoded with
    | none => rfl
    | some p =>
      rcases h with h | h
      · exact absurd (show (201 : Nat) = 400 from h) (by decide)
      · exact absurd (show (201 : Nat) = 404 from h) (by decide)
  | delete seg =>
    rcases h with h | h
    · rcases delete_status g seg with h2 | h2 <;>
        exact absurd (h.symm.trans h2) (by decide)
    · exact hdel g seg h
  | next =>
    rcases h with h | h
    · rcases next_cases g newResponseWriter with ⟨_, hE⟩ | ⟨_, _, hE⟩ | ⟨st, _, _, hE⟩
      · simp only [handle, hE]
      · simp only [handle, hE]
      · simp only [handle, hE] at h
        exact absurd (show (200 : Nat) = 400 from h) (by decide)
    · exact hnext g h

/-- C16 on the seed state with the cursor on 10: a Get of text (400), a Get of an absent
id (404), a Delete of an absent id (404) and a Next past the last record (404) change
nothing. -/
theorem C16_failure_atomicity_witness :
    (GetStudentHandler { seed with lastQueriedId := 10 } newResponseWriter "abc").1
      = { seed with lastQueriedId := 10 } ∧
    (GetStudentHandler { seed with lastQueriedId := 10 } newResponseWriter "42").1
      = { seed with lastQueriedId := 10 } ∧
    (DeleteStudentHandler { seed with lastQueriedId := 10 } newResponseWriter "42").1
      = { seed with lastQueriedId := 10 } ∧
    (GetNextStudentHandler { seed with lastQueriedId := 10 } newResponseWriter).1
      = { seed with lastQueriedId := 10 } :=
  ⟨C16_failure_atomicity.1 _ "abc" (Or.inl (by decide)),
   C16_failure_atomicity.1 _ "42" (Or.inr (by decide)),
   C16_failure_atomicity.2.2.1 _ "42" (by decide),
   C16_failure_atomicity.2.2.2.1 _ (by decide)⟩

/-! ## C17 -/

/-- C17: the seed state.  From the zero values of the globals, `MakeWebHandler` yields a
store of exactly 10 records under the keys 1 to 10, whose ages in id order are
16, 18, 20, 11, 22, 33, 44, 55, 66, 77, whose scores in id order are
87, 98, 85, 70, 76, 82, 83, 96, 62, 34 and whose names in id order are the nine names
"aaa" to "iii" ("ccc" is the name of both record 3 and record 4), with `lastId = 10` and
`lastQueriedId = 0`; Get of 3 returns the record 3, "ccc", 20, 85 and the Next that follows
returns the record of Id 4. -/
theorem C17_seed_state :
    zeroGlobals = ⟨∅, 0, 0⟩ ∧
    (MakeWebHandler zeroGlobals).students.entries.length = 10 ∧
    (∀ k : Int, k ∈ (MakeWebHandler zeroGlobals).students ↔ 1 ≤ k ∧ k ≤ 10) ∧
    ([1, 2, 3, 4, 5, 6, 7, 8, 9, 10].map
        (fun k : Int => ((MakeWebHandler zeroGlobals).students.lookup k).map (fun s => s.Id))
      = [some 1, some 2, some 3, some 4, some 5, some 6, some 7, some 8, some 9, some 10]) ∧
    ([1, 2, 3, 4, 5, 6, 7, 8, 9, 10].map
        (fun k : Int => ((MakeWebHandler zeroGlobals).students.lookup k).map (fun s => s.Age))
      = [some 16, some 18, some 20, some 11, some 22, some 33, some 44, some 55, some 66,
          some 77]) ∧
    ([1, 2, 3, 4, 5, 6, 7, 8, 9, 10].map
        (fun k : Int =>
          ((MakeWebHandler zeroGlobals).students.lookup k).map (fun s => s.Score))
      = [some 87, some 98, some 85, some 70, some 76, some 82, some 83, some 96, some 62,
          some 34]) ∧
    ([1, 2, 3, 4, 5, 6, 7, 8, 9, 10].map
        (fun k : Int => ((MakeWebHandler zeroGlobals).students.lookup k).map (fun s => s.Name))
      = [some "aaa", some "bbb", some "ccc", some "ccc", some "ddd", some "eee", some "fff",
          some "ggg", some "hhh", some "iii"]) ∧
    (([1, 2, 3, 4, 5, 6, 7, 8, 9, 10].map
        (fun k : Int =>
          ((MakeWebHandler zeroGlobals).students.lookup k).map (fun s => s.Name))).dedup
      = [some "aaa", some "bbb", some "ccc", some "ddd", some "eee", some "fff", some "ggg",
          some "hhh", some "iii"]) ∧
    (MakeWebHandler zeroGlobals).lastId = 10 ∧
    (MakeWebHandler zeroGlobals).lastQueriedId = 0 ∧
    (GetStudentHandler (MakeWebHandler zeroGlobals) newResponseWriter "3").2.status = 200 ∧
    (GetStudentHandler (MakeWebHandler zeroGlobals) newResponseWriter "3").2.body
      = [Body.student ⟨3, "ccc", 20, 85⟩] ∧
    (GetNextStudentHandler
        (GetStudentHandler (MakeWebHandler zeroGlobals) newResponseWriter "3").1
        newResponseWriter).2.status = 200 ∧
    (GetNextStudentHandler
        (GetStudentHandler (MakeWebHandler zeroGlobals) newResponseWriter "3").1
        newResponseWriter).2.body = [Body.student ⟨4, "ccc", 11, 70⟩] := by
  refine ⟨rfl, by decide, seed_keys, by decide, by decide, by decide, by decide, by decide,
    rfl, rfl, by decide, by decide, by decide, by decide⟩

/-! ## C18 -/

/-- C18: idempotent list ordering.  In every reachable state List changes none of the map,
`lastId` and `lastQueriedId`; its response is the same for every order in which the map can
be iterated; hence two List calls separated by requests other than Create and Delete (Get
and Next may be among them) return identical sequences. -/
theorem C18_list_idempotent (g : Globals) (hg : Reachable g) :
    (∀ iter : List Student, (GetStudentListHandler g newResponseWriter iter).1 = g) ∧
    (∀ iter₁ iter₂ : List Student,
      RangeOrder g.students iter₁ → RangeOrder g.students iter₂ →
      (GetStudentListHandler g newResponseWriter iter₁).2
        = (GetStudentListHandler g newResponseWriter iter₂).2) ∧
    (∀ (ops : List Op) (iter₁ iter₂ : List Student),
      (∀ op ∈ ops, isCreateOrDelete op = false) →
      RangeOrder g.students iter₁ → RangeOrder (run g ops).students iter₂ →
      (GetStudentListHandler g newResponseWriter iter₁).2.body
        = (GetStudentListHandler (run g ops) newResponseWriter iter₂).2.body ∧
      (GetStudentListHandler g newResponseWriter iter₁).2.status
        = (GetStudentListHandler (run g ops) newResponseWriter iter₂).2.status) := by
  have hinv := inv_of_reachable hg
  refine ⟨fun iter => rfl, ?_, ?_⟩
  · intro iter₁ iter₂ h₁ h₂
    rw [list_response_unique g hinv iter₁ iter₂ h₁ h₂]
  · intro ops iter₁ iter₂ hops h₁ h₂
    rw [students_run_read ops g hops] at h₂
    rw [list_snd_globals (run g ops) g newResponseWriter iter₂,
      list_response_unique g hinv iter₁ iter₂ h₁ h₂]
    exact ⟨rfl, rfl⟩

/-- C18 on the seed state: a List that visits the map from key 10 down to key 1, then a
Get and a Next, then a List that visits it from key 1 up to key 10. -/
theorem C18_list_idempotent_witness :
    (GetStudentListHandler seed newResponseWriter (values seed.students)).2.body
      = (GetStudentListHandler (run seed [Op.get "3", Op.next]) newResponseWriter
          (values seed.students).reverse).2.body ∧
    (GetStudentListHandler seed newResponseWriter (values seed.students)).2.status
      = (GetStudentListHandler (run seed [Op.get "3", Op.next]) newResponseWriter
          (values seed.students).reverse).2.status :=
  (C18_list_idempotent seed reachable_seed).2.2 [Op.get "3", Op.next]
    (values seed.students) (values seed.students).reverse (by decide)
    (List.Perm.refl _) (List.reverse_perm _)

/-! ## C19 -/

/-- C19: Next can reach a freshly created record.  In every reachable state in which
`lastQueriedId` equals `lastId`, Next answers 404; after a successful Create, Next answers
200 with exactly the record that Create stored and sets `lastQueriedId` to the new
`lastId`. -/
theorem C19_next_reaches_created (g : Globals) (hg : Reachable g)
    (heq : g.lastQueriedId = g.lastId) (p : Student) :
    (GetNextStudentHandler g newResponseWriter).2.status = 404 ∧
    (PostStudentHandler g newResponseWriter (some p)).1.students.lookup (g.lastId + 1)
      = some ⟨g.lastId + 1, p.Name, p.Age, p.Score⟩ ∧
    (GetNextStudentHandler (PostStudentHandler g newResponseWriter (some p)).1
      newResponseWriter).2.status = 200 ∧
    (GetNextStudentHandler (PostStudentHandler g newResponseWriter (some p)).1
      newResponseWriter).2.body = [Body.student ⟨g.lastId + 1, p.Name, p.Age, p.Score⟩] ∧
    (GetNextStudentHandler (PostStudentHandler g newResponseWriter (some p)).1
      newResponseWriter).2.body = (PostStudentHandler g newResponseWriter (some p)).2.body ∧
    (GetNextStudentHandler (PostStudentHandler g newResponseWriter (some p)).1
      newResponseWriter).1.lastQueriedId
      = (PostStudentHandler g newResponseWriter (some p)).1.lastId := by
  have hinv := inv_of_reachable hg
  have h0 : g.lastQueriedId ≠ 0 := by
    have := hinv.1
    omega
  have habs : g.students.lookup (g.lastQueriedId + 1) = none := by
    apply AList.lookup_eq_none.mpr
    intro hmem
    have := hinv.2.1 _ hmem
    omega
  have hnew : (PostStudentHandler g newResponseWriter (some p)).1.students.lookup
      (g.lastId + 1) = some ⟨g.lastId + 1, p.Name, p.Age, p.Score⟩ := by
    rw [post_fst_some]
    exact AList.lookup_insert _
  have hc0 : (PostStudentHandler g newResponseWriter (some p)).1.lastQueriedId ≠ 0 := h0
  have hcl : (PostStudentHandler g newResponseWriter (some p)).1.students.lookup
      ((PostStudentHandler g newResponseWriter (some p)).1.lastQueriedId + 1)
      = some ⟨g.lastId + 1, p.Name, p.Age, p.Score⟩ := by
    have hq : (PostStudentHandler g newResponseWriter (some p)).1.lastQueriedId
        = g.lastId := heq
    rw [hq]
    exact hnew
  rw [next_of_none g _ h0 habs, next_of_some _ _ hc0 _ hcl]
  refine ⟨rfl, hnew, rfl, rfl, rfl, ?_⟩
  show g.lastQueriedId + 1 = g.lastId + 1
  rw [heq]

/-- C19 right after Get of 10 on the seed state: Create, then Next returns record 11. -/
theorem C19_next_reaches_created_witness :
    (GetNextStudentHandler (GetStudentHandler seed newResponseWriter "10").1
      newResponseWriter).2.status = 404 ∧
    (GetNextStudentHandler
      (PostStudentHandler (GetStudentHandler seed newResponseWriter "10").1
        newResponseWriter (some ⟨0, "zzz", 9, 50⟩)).1 newResponseWriter).2.status = 200 ∧
    (GetNextStudentHandler
      (PostStudentHandler (GetStudentHandler seed newResponseWriter "10").1
        newResponseWriter (some ⟨0, "zzz", 9, 50⟩)).1 newResponseWriter).2.body
      = [Body.student
          ⟨(GetStudentHandler seed newResponseWriter "10").1.lastId + 1, "zzz", 9, 50⟩] :=
  have h := C19_next_reaches_created (GetStudentHandler seed newResponseWriter "10").1
    (reachable_handle reachable_seed (Op.get "10")) (by decide) ⟨0, "zzz", 9, 50⟩
  ⟨h.1, h.2.2.1, h.2.2.2.1⟩

/-! ## C20 -/

/-- C20: re-seeding does not reset the cursor.  For every prior state `MakeWebHandler`
replaces the map with the 10 seed records and sets `lastId` to 10 but leaves `lastQueriedId`
as it was; called on a state whose `lastQueriedId` is `q` with `1 ≤ q ≤ 9`, it is followed
by a Next that answers 200 with the seed record `q + 1`, although no Get or Next was made
since the store was seeded. -/
theorem C20_reseed_keeps_cursor :
    (∀ g : Globals,
      (MakeWebHandler g).students = seed.students ∧
      (MakeWebHandler g).lastId = 10 ∧
      (MakeWebHandler g).lastQueriedId = g.lastQueriedId) ∧
    (∀ g : Globals, 1 ≤ g.lastQueriedId → g.lastQueriedId ≤ 9 →
      ∃ st, seed.students.lookup (g.lastQueriedId + 1) = some st ∧
        st.Id = g.lastQueriedId + 1 ∧
        (GetNextStudentHandler (MakeWebHandler g) newResponseWriter).2.status = 200 ∧
        (GetNextStudentHandler (MakeWebHandler g) newResponseWriter).2.body
          = [Body.student st] ∧
        (GetNextStudentHandler (MakeWebHandler g) newResponseWriter).1.lastQueriedId
          = g.lastQueriedId + 1) := by
  refine ⟨fun g => ⟨rfl, rfl, rfl⟩, ?_⟩
  intro g h₁ h₂
  obtain ⟨st, hl, hid⟩ := seed_lookup_id (g.lastQueriedId + 1) (by omega) (by omega)
  have h0 : (MakeWebHandler g).lastQueriedId ≠ 0 := by
    show g.lastQueriedId ≠ 0
    omega
  have hl2 : (MakeWebHandler g).students.lookup ((MakeWebHandler g).lastQueriedId + 1)
      = some st := hl
  rw [next_of_some _ _ h0 st hl2]
  exact ⟨st, hl, hid, rfl, rfl, rfl⟩

/-- C20 on a state left behind by earlier requests, with the cursor on 7 and another map:
after `MakeWebHandler`, Next answers with seed record 8. -/
theorem C20_reseed_keeps_cursor_witness :
    ∃ st, seed.students.lookup ((⟨∅, 25, 7⟩ : Globals).lastQueriedId + 1) = some st ∧
      st.Id = (⟨∅, 25, 7⟩ : Globals).lastQueriedId + 1 ∧
      (GetNextStudentHandler (MakeWebHandler ⟨∅, 25, 7⟩) newResponseWriter).2.status = 200 ∧
      (GetNextStudentHandler (MakeWebHandler ⟨∅, 25, 7⟩) newResponseWriter).2.body
        = [Body.student st] ∧
      (GetNextStudentHandler (MakeWebHandler ⟨∅, 25, 7⟩) newResponseWriter).1.lastQueriedId
        = (⟨∅, 25, 7⟩ : Globals).lastQueriedId + 1 :=
  C20_reseed_keeps_cursor.2 ⟨∅, 25, 7⟩ (by decide) (by decide)

end RestApi
